import Mathlib

/-!
Verification development for the Polymarket 15m crypto market assistant's
trading engine (the trend-sizing page: signal evaluation, position sizing,
order execution, hedging and late-window inventory rebalancing).

The JavaScript source is shallowly embedded over exact rationals (ℚ):
every JS `number` that the modelled code paths can reach is a finite IEEE
double, which we model as a rational; nullable / possibly-non-finite
quantities (missing best-bid/ask, `null` ratios, absent API fields) are
modelled as `Option ℚ`.  JS `Number.EPSILON` is 2⁻⁵², and the engine's
`NUMERIC_EPSILON` is 1e-9; both are exact rationals here.

`Math.floor`/`Math.ceil`/`Math.round` are embedded as executable integer
operations (`floorQ`, `ceilQ`, `roundQ`) and related to Mathlib's
`Int.floor`/`Int.ceil`/`round` by bridge lemmas.
-/

set_option maxRecDepth 40000

namespace PM15

/-- `NUMERIC_EPSILON = 1e-9` from the source. -/
def EPS9 : ℚ := 1 / 1000000000

/-- JS `Number.EPSILON = 2^-52`, used by `roundTo`. -/
def EPS52 : ℚ := 1 / 4503599627370496

/-- `MIN_BUY_PRICE = 0.01`. -/
def MIN_BUY_PRICE : ℚ := 1 / 100

/-- `MAX_BUY_PRICE = 0.99`. -/
def MAX_BUY_PRICE : ℚ := 99 / 100

/-- `LIVE_MIN_SHARES = 5`. -/
def LIVE_MIN_SHARES : ℚ := 5

/-- `LIVE_MIN_NOTIONAL_USD = 1`. -/
def LIVE_MIN_NOTIONAL_USD : ℚ := 1

/-- `LIVE_RETRY_BACKOFF_MS = 2500`. -/
def LIVE_RETRY_BACKOFF_MS : ℚ := 2500

/-- `LIVE_RETRY_BACKOFF_COLLATERAL_MS = 10000`. -/
def LIVE_RETRY_BACKOFF_COLLATERAL_MS : ℚ := 10000

/-- `LIVE_RETRY_BACKOFF_CONDITIONAL_MS = 6000`. -/
def LIVE_RETRY_BACKOFF_CONDITIONAL_MS : ℚ := 6000

/-- `LIVE_RETRY_BACKOFF_FAK_NO_MATCH_MS = 4000`. -/
def LIVE_RETRY_BACKOFF_FAK_NO_MATCH_MS : ℚ := 4000

/-- `LIVE_RETRY_BACKOFF_INVALID_PRICE_MS = 15000`. -/
def LIVE_RETRY_BACKOFF_INVALID_PRICE_MS : ℚ := 15000

/-- `RATIO_POINTS_LIMIT = 1200`. -/
def RATIO_POINTS_LIMIT : ℕ := 1200

/-- Executable floor of a rational (`Math.floor`): Mathlib's `⌊q⌋` is not
kernel-reducible, so we compute `num / den` directly. -/
def floorQ (q : ℚ) : ℤ := q.num / (q.den : ℤ)

/-- Executable ceiling of a rational (`Math.ceil`). -/
def ceilQ (q : ℚ) : ℤ := -floorQ (-q)

/-- Executable rounding (`Math.round`, half toward +∞). -/
def roundQ (q : ℚ) : ℤ := floorQ (q + 1 / 2)

theorem floorQ_eq (q : ℚ) : floorQ q = ⌊q⌋ := by
  rw [Rat.floor_def]; rfl

theorem ceilQ_eq (q : ℚ) : ceilQ q = ⌈q⌉ := by
  rw [ceilQ, floorQ_eq, ← Int.ceil_neg, neg_neg]

theorem roundQ_eq (q : ℚ) : roundQ q = round q := by
  rw [roundQ, floorQ_eq, round_eq]

/-- `clamp(value, min, max) = Math.min(max, Math.max(min, value))`. -/
def clampQ (value lo hi : ℚ) : ℚ := min hi (max lo value)

/-- `isBelowMin(value, min) = !isFinite(value) || value + 1e-9 < min`,
for an already-finite value. -/
def isBelowMin (value lo : ℚ) : Bool := value + EPS9 < lo

/-- `isPriceOutOfTradableRange(price)`. -/
def isPriceOutOfTradableRange (price : ℚ) : Bool :=
  isBelowMin price MIN_BUY_PRICE || decide (MAX_BUY_PRICE + EPS9 < price)

/-- `roundTo(value, 2) = Math.round((value + Number.EPSILON) * 100) / 100`. -/
def roundTo2 (v : ℚ) : ℚ := ((roundQ ((v + EPS52) * 100) : ℤ) : ℚ) / 100

/-- `floorTo(value, 2) = Math.floor((value + 1e-9) * 100) / 100`. -/
def floorTo2 (v : ℚ) : ℚ := ((floorQ ((v + EPS9) * 100) : ℤ) : ℚ) / 100

/-- `ceilTo(value, 2) = Math.ceil((value - 1e-9) * 100) / 100`. -/
def ceilTo2 (v : ℚ) : ℚ := ((ceilQ ((v - EPS9) * 100) : ℤ) : ℚ) / 100

/-- Trade side. -/
inductive Side where
  | buy
  | sell
deriving DecidableEq

/-- Binary market outcome ("Up" / "Down"). -/
inductive Outcome where
  | up
  | down
deriving DecidableEq

/-- The opposite outcome. -/
def Outcome.opp : Outcome → Outcome
  | .up => .down
  | .down => .up

/-- Minimum with a possibly-infinite bound (`none` = +∞, as in the JS
defaults `maxSize = Infinity`). -/
def minWith (v : ℚ) (bound : Option ℚ) : ℚ :=
  match bound with
  | none => v
  | some b => min v b

/-- `hasPx && isBelowMin(size * px, minNotional)`: the final
below-minimum-notional rejection. -/
def notionalBelow (px? : Option ℚ) (s minNotional : ℚ) : Bool :=
  match px? with
  | some p => isBelowMin (s * p) minNotional
  | none => false

/-- `hasPx = Number.isFinite(px) && px > 0`, packaged as the price the
later steps may use (`none` when there is no usable price). -/
def pxOf (price : Option ℚ) : Option ℚ :=
  match price with
  | some p => if 0 < p then some p else none
  | none => none

/-- `minSharesFromNotional = hasPx ? ceilTo(minNotional / px, 2) : minShares`. -/
def minSharesFromNotionalOf (px? : Option ℚ) (minShares minNotional : ℚ) : ℚ :=
  match px? with
  | some p => ceilTo2 (minNotional / p)
  | none => minShares

/-- The SELL arm of `normalizeTradeSize`, from the clamp to
`[hardMinShares, availAllowed]` through the unsellable-remainder forcing,
the cap, the second forcing, and the final minimum/notional rejections. -/
def sellNormalizeSize (rawSize availAllowed hardMinShares minShares minNotional : ℚ)
    (px? maxAllowed : Option ℚ) : ℚ :=
  if isBelowMin availAllowed hardMinShares then 0 else
  let s2 := min (max rawSize hardMinShares) availAllowed
  let remaining := availAllowed - s2
  let s3 := if EPS9 < remaining ∧ isBelowMin remaining hardMinShares
    then availAllowed else s2
  if isBelowMin s3 minShares then 0 else
  let s4 := minWith s3 maxAllowed
  let remainingAfterCap := availAllowed - s4
  let s5 := if EPS9 < remainingAfterCap ∧ isBelowMin remainingAfterCap hardMinShares
    then availAllowed else s4
  if isBelowMin s5 minShares then 0 else
  if notionalBelow px? s5 minNotional then 0 else
  roundTo2 (max s5 minShares)

/-- The BUY arm of `normalizeTradeSize`. -/
def buyNormalizeSize (rawSize hardMinShares minShares minNotional : ℚ)
    (px? maxAllowed : Option ℚ) : ℚ :=
  let s5 := minWith (max rawSize hardMinShares) maxAllowed
  if isBelowMin s5 minShares then 0 else
  if notionalBelow px? s5 minNotional then 0 else
  roundTo2 (max s5 minShares)

/-- `normalizeTradeSize` from the source, over exact rationals.

`price` is `none` for a non-finite JS price; a finite non-positive price
also fails the `hasPx` test.  `maxSize`/`available` are `none` for the
`Infinity` defaults.  A non-finite `rawSize` returns 0 in JS exactly like
`rawSize ≤ 0`, so `rawSize` is a plain rational here. -/
def normalizeTradeSize (rawSize : ℚ) (side : Side) (price : Option ℚ)
    (maxSize available : Option ℚ) (minShares minNotional : ℚ) : ℚ :=
  if rawSize ≤ 0 then 0 else
  let px? : Option ℚ := pxOf price
  let maxAllowed : Option ℚ := maxSize.map (fun m => max 0 m)
  let hardMinShares : ℚ := max minShares (minSharesFromNotionalOf px? minShares minNotional)
  match side with
  | .sell =>
    -- `isBelowMin(availAllowed, hardMinShares)`: an infinite `available`
    -- is not finite, hence "below min" and the SELL is rejected.
    match available with
    | none => 0
    | some a0 =>
      sellNormalizeSize rawSize (max 0 a0) hardMinShares minShares minNotional px? maxAllowed
  | .buy =>
    buyNormalizeSize rawSize hardMinShares minShares minNotional px? maxAllowed

-- Scenario sanity checks from the spec (§8): available=7, minShares=5.
example : normalizeTradeSize 7 .sell (some (1/2)) none (some 7) 5 1 = 7 := by
  with_unfolding_all decide
example : normalizeTradeSize 6 .sell (some (1/2)) none (some 7) 5 1 = 7 := by
  with_unfolding_all decide

/-! ### Rounding lemmas for claim C1 -/

theorem roundTo2_eq_floor (v : ℚ) :
    roundTo2 v = ((⌊(v + EPS52) * 100 + 1 / 2⌋ : ℤ) : ℚ) / 100 := by
  unfold roundTo2 roundQ
  rw [floorQ_eq]

/-- A rational lying on the engine's 2-decimal grid. -/
def IsCent (q : ℚ) : Prop := ∃ k : ℤ, q = (k : ℚ) / 100

theorem isCent_roundTo2 (v : ℚ) : IsCent (roundTo2 v) :=
  ⟨roundQ ((v + EPS52) * 100), rfl⟩

theorem isCent_ceilTo2 (v : ℚ) : IsCent (ceilTo2 v) :=
  ⟨ceilQ ((v - EPS9) * 100), rfl⟩

theorem isCent_sub {a b : ℚ} (ha : IsCent a) (hb : IsCent b) : IsCent (a - b) := by
  obtain ⟨ka, rfl⟩ := ha
  obtain ⟨kb, rfl⟩ := hb
  exact ⟨ka - kb, by push_cast; ring⟩

theorem isCent_max {a b : ℚ} (ha : IsCent a) (hb : IsCent b) : IsCent (max a b) := by
  rcases max_choice a b with h | h <;> rw [h] <;> assumption

/-- Two grid points closer than one cent are ordered. -/
theorem cent_gap {a b : ℚ} (ha : IsCent a) (hb : IsCent b) (h : b - 1 / 100 < a) :
    b ≤ a := by
  obtain ⟨ka, rfl⟩ := ha
  obtain ⟨kb, rfl⟩ := hb
  have h' : (kb : ℚ) - 1 < ka := by linarith
  have : kb - 1 < ka := by exact_mod_cast h'
  have : kb ≤ ka := by omega
  have : (kb : ℚ) ≤ (ka : ℚ) := by exact_mod_cast this
  linarith

theorem roundTo2_mono {v w : ℚ} (h : v ≤ w) : roundTo2 v ≤ roundTo2 w := by
  rw [roundTo2_eq_floor, roundTo2_eq_floor]
  have hf : ⌊(v + EPS52) * 100 + 1 / 2⌋ ≤ ⌊(w + EPS52) * 100 + 1 / 2⌋ :=
    Int.floor_le_floor (by linarith)
  have hf' : ((⌊(v + EPS52) * 100 + 1 / 2⌋ : ℤ) : ℚ) ≤ ((⌊(w + EPS52) * 100 + 1 / 2⌋ : ℤ) : ℚ) := by
    exact_mod_cast hf
  linarith

theorem roundTo2_le (v : ℚ) : roundTo2 v ≤ v + (1 / 200 + EPS52) := by
  rw [roundTo2_eq_floor]
  have h : ((⌊(v + EPS52) * 100 + 1 / 2⌋ : ℤ) : ℚ) ≤ (v + EPS52) * 100 + 1 / 2 :=
    Int.floor_le _
  linarith

theorem roundTo2_cent (k : ℤ) : roundTo2 ((k : ℚ) / 100) = (k : ℚ) / 100 := by
  rw [roundTo2_eq_floor]
  have hk : ⌊((k : ℚ) / 100 + EPS52) * 100 + 1 / 2⌋ = k := by
    rw [Int.floor_eq_iff]
    constructor
    · simp only [EPS52]; linarith
    · simp only [EPS52]; linarith
  rw [hk]

/-- Any value within `NUMERIC_EPSILON` below a grid point rounds back to it. -/
theorem roundTo2_near_cent (k : ℤ) {v : ℚ} (h1 : (k : ℚ) / 100 - EPS9 ≤ v)
    (h2 : v ≤ (k : ℚ) / 100) : roundTo2 v = (k : ℚ) / 100 := by
  rw [roundTo2_eq_floor]
  have hk : ⌊(v + EPS52) * 100 + 1 / 2⌋ = k := by
    rw [Int.floor_eq_iff]
    constructor
    · simp only [EPS52, EPS9] at *; linarith
    · simp only [EPS52, EPS9] at *; linarith
  rw [hk]

theorem minWith_le (v : ℚ) (bound : Option ℚ) : minWith v bound ≤ v := by
  cases bound with
  | none => exact le_refl v
  | some b => exact min_le_left v b

theorem roundTo2_of_isCent {a : ℚ} (h : IsCent a) : roundTo2 a = a := by
  obtain ⟨k, rfl⟩ := h
  exact roundTo2_cent k

theorem roundTo2_near_of_isCent {a v : ℚ} (hac : IsCent a) (h1 : a - EPS9 ≤ v)
    (h2 : v ≤ a) : roundTo2 v = a := by
  obtain ⟨k, rfl⟩ := hac
  exact roundTo2_near_cent k h1 h2

/-- Core of claim C1 over the SELL arm: if `availAllowed` and `minShares`
are on the 2-decimal grid, the returned size is 0 or in
`[minShares, availAllowed]` and the residual is 0 or at least
`hardMinShares ≥ minShares`. -/
theorem sellNormalizeSize_spec (rawSize a H m minNotional : ℚ)
    (px? maxAllowed : Option ℚ)
    (_hm : 0 < m) (hmc : IsCent m) (hac : IsCent a)
    (hH : IsCent H) (hmH : m ≤ H) :
    sellNormalizeSize rawSize a H m minNotional px? maxAllowed = 0 ∨
      (m ≤ sellNormalizeSize rawSize a H m minNotional px? maxAllowed ∧
        sellNormalizeSize rawSize a H m minNotional px? maxAllowed ≤ a ∧
        (a - sellNormalizeSize rawSize a H m minNotional px? maxAllowed = 0 ∨
          m ≤ a - sellNormalizeSize rawSize a H m minNotional px? maxAllowed)) := by
  unfold sellNormalizeSize
  dsimp only
  by_cases h1 : isBelowMin a H = true
  · rw [if_pos h1]; left; rfl
  rw [if_neg h1]
  simp only [isBelowMin, decide_eq_true_eq, not_lt] at h1
  have hHa : H ≤ a := cent_gap hac hH (by simp only [EPS9] at h1; linarith)
  have hma : m ≤ a := le_trans hmH hHa
  have hs2H : H ≤ min (max rawSize H) a := le_min (le_max_right _ _) hHa
  have hs2a : min (max rawSize H) a ≤ a := min_le_right _ _
  set s2 : ℚ := min (max rawSize H) a with hs2def
  set s3 : ℚ := if EPS9 < a - s2 ∧ isBelowMin (a - s2) H = true then a else s2 with hs3def
  have hs3a : s3 ≤ a := by
    rw [hs3def]; split_ifs
    · exact le_refl a
    · exact hs2a
  have hs3H : H ≤ s3 := by
    rw [hs3def]; split_ifs
    · exact hHa
    · exact hs2H
  by_cases h3 : isBelowMin s3 m = true
  · rw [if_pos h3]; left; rfl
  rw [if_neg h3]
  set s4 : ℚ := minWith s3 maxAllowed with hs4def
  have hs4a : s4 ≤ a := le_trans (minWith_le s3 maxAllowed) hs3a
  set s5 : ℚ := if EPS9 < a - s4 ∧ isBelowMin (a - s4) H = true then a else s4 with hs5def
  have hs5a : s5 ≤ a := by
    rw [hs5def]; split_ifs
    · exact le_refl a
    · exact hs4a
  have hs5cases : s5 = a ∨ (s5 = s4 ∧ (a - s4 ≤ EPS9 ∨ H ≤ a - s4 + EPS9)) := by
    rw [hs5def]; split_ifs with hc
    · exact Or.inl rfl
    · refine Or.inr ⟨rfl, ?_⟩
      simp only [isBelowMin, decide_eq_true_eq] at hc
      push_neg at hc
      by_cases hd : EPS9 < a - s4
      · exact Or.inr (hc hd)
      · exact Or.inl (le_of_not_lt hd)
  by_cases h5 : isBelowMin s5 m = true
  · rw [if_pos h5]; left; rfl
  rw [if_neg h5]
  simp only [isBelowMin, decide_eq_true_eq, not_lt] at h5
  by_cases h6 : notionalBelow px? s5 minNotional = true
  · rw [if_pos h6]; left; rfl
  rw [if_neg h6]
  right
  have hmax_le_a : max s5 m ≤ a := max_le hs5a hma
  have hr_le_a : roundTo2 (max s5 m) ≤ a := by
    calc roundTo2 (max s5 m) ≤ roundTo2 a := roundTo2_mono hmax_le_a
    _ = a := roundTo2_of_isCent hac
  have hm_le_r : m ≤ roundTo2 (max s5 m) := by
    calc m = roundTo2 m := (roundTo2_of_isCent hmc).symm
    _ ≤ roundTo2 (max s5 m) := roundTo2_mono (le_max_right _ _)
  refine ⟨hm_le_r, hr_le_a, ?_⟩
  rcases hs5cases with h5a | ⟨h5eq, hres⟩
  · -- forced to the whole available: residual is exactly zero
    left
    rw [h5a, max_eq_left hma, roundTo2_of_isCent hac, sub_self]
  · rcases hres with hsmall | hbig
    · -- residual below numeric epsilon: rounding recovers availAllowed
      left
      have h1' : a - EPS9 ≤ s5 := by rw [h5eq]; linarith
      have hlow : a - EPS9 ≤ max s5 m := le_trans h1' (le_max_left s5 m)
      rw [roundTo2_near_of_isCent hac hlow hmax_le_a, sub_self]
    · -- genuine residual: a grid value less than one cent below hardMinShares
      right
      have hEPS9 : (0:ℚ) ≤ EPS9 := by norm_num [EPS9]
      have hmax_le : max s5 m ≤ s5 + EPS9 :=
        max_le (le_add_of_nonneg_right hEPS9) h5
      have hr_le : roundTo2 (max s5 m) ≤ s5 + EPS9 + (1 / 200 + EPS52) :=
        le_trans (roundTo2_mono hmax_le) (roundTo2_le _)
      have hgap : H - 1 / 100 < a - roundTo2 (max s5 m) := by
        rw [← h5eq] at hbig
        simp only [EPS9, EPS52] at hbig hr_le
        linarith
      have hHle : H ≤ a - roundTo2 (max s5 m) :=
        cent_gap (isCent_sub hac (isCent_roundTo2 _)) hH hgap
      linarith

/-- Claim C1 (amended).  For every SELL call to `normalizeTradeSize` with
`available > 0` and `minShares > 0` that both lie on the 2-decimal grid
(multiples of 0.01 — the function's own rounding precision), the returned
size is either 0 or lies in `[minShares, available]`, and the residual
`available - result` is 0 or at least `minShares`.  (For inputs off the
grid the final 2-decimal rounding can push the result up to half a cent
above `available`; see the counterexample.) -/
theorem c1_sell_residual_amended (rawSize minNotional : ℚ)
    (price maxSize : Option ℚ) (a m : ℚ)
    (ha : 0 < a) (hm : 0 < m) (hac : IsCent a) (hmc : IsCent m) :
    normalizeTradeSize rawSize .sell price maxSize (some a) m minNotional = 0 ∨
      (m ≤ normalizeTradeSize rawSize .sell price maxSize (some a) m minNotional ∧
        normalizeTradeSize rawSize .sell price maxSize (some a) m minNotional ≤ a ∧
        (a - normalizeTradeSize rawSize .sell price maxSize (some a) m minNotional = 0 ∨
          m ≤ a - normalizeTradeSize rawSize .sell price maxSize (some a) m minNotional)) := by
  by_cases h0 : rawSize ≤ 0
  · left; simp [normalizeTradeSize, h0]
  unfold normalizeTradeSize
  rw [if_neg h0]
  dsimp only
  rw [max_eq_right ha.le]
  cases price with
  | none =>
    simp only [pxOf, minSharesFromNotionalOf]
    exact sellNormalizeSize_spec rawSize a (max m m) m minNotional none _ hm hmc hac
      (isCent_max hmc hmc) (le_max_left m m)
  | some p =>
    by_cases hp : 0 < p
    · simp only [pxOf, if_pos hp, minSharesFromNotionalOf]
      exact sellNormalizeSize_spec rawSize a (max m (ceilTo2 (minNotional / p))) m minNotional
        (some p) _ hm hmc hac (isCent_max hmc (isCent_ceilTo2 _)) (le_max_left _ _)
    · simp only [pxOf, if_neg hp, minSharesFromNotionalOf]
      exact sellNormalizeSize_spec rawSize a (max m m) m minNotional none _ hm hmc hac
        (isCent_max hmc hmc) (le_max_left _ _)

/-- Claim C1, counterexample to the claim as stated: with
`available = 7.006 > 0`, `minShares = 5 > 0`, `rawSize = 6`,
`price = 0.5`, the unsellable-remainder forcing sets the size to the full
7.006, and the final 2-decimal rounding returns 7.01 > available, so the
result is neither 0 nor in `[minShares, available]`, and the residual
is negative. -/
theorem c1_counterexample :
    0 < (7006 / 1000 : ℚ) ∧ 0 < (5 : ℚ) ∧
    normalizeTradeSize 6 .sell (some (1 / 2)) none (some (7006 / 1000)) 5 1 = 701 / 100 ∧
    ¬(normalizeTradeSize 6 .sell (some (1 / 2)) none (some (7006 / 1000)) 5 1 = 0 ∨
        (5 ≤ normalizeTradeSize 6 .sell (some (1 / 2)) none (some (7006 / 1000)) 5 1 ∧
          normalizeTradeSize 6 .sell (some (1 / 2)) none (some (7006 / 1000)) 5 1 ≤ 7006 / 1000 ∧
          (7006 / 1000 - normalizeTradeSize 6 .sell (some (1 / 2)) none (some (7006 / 1000)) 5 1 = 0 ∨
            5 ≤ 7006 / 1000 - normalizeTradeSize 6 .sell (some (1 / 2)) none (some (7006 / 1000)) 5 1))) := by
  with_unfolding_all decide

/-- Witness for C1 at the spec's own scenario: available = 7, minShares = 5,
rawSize = 6 (forced up to 7, residual 0). -/
theorem c1_sell_residual_amended_witness :
    (0 < (7 : ℚ) ∧ 0 < (5 : ℚ) ∧ IsCent 7 ∧ IsCent 5) ∧
    (normalizeTradeSize 6 .sell (some (1 / 2)) none (some 7) 5 1 = 0 ∨
      (5 ≤ normalizeTradeSize 6 .sell (some (1 / 2)) none (some 7) 5 1 ∧
        normalizeTradeSize 6 .sell (some (1 / 2)) none (some 7) 5 1 ≤ 7 ∧
        (7 - normalizeTradeSize 6 .sell (some (1 / 2)) none (some 7) 5 1 = 0 ∨
          5 ≤ 7 - normalizeTradeSize 6 .sell (some (1 / 2)) none (some 7) 5 1))) :=
  ⟨⟨by norm_num, by norm_num, ⟨700, by norm_num⟩, ⟨500, by norm_num⟩⟩,
    c1_sell_residual_amended 6 1 (some (1 / 2)) none 7 5 (by norm_num) (by norm_num)
      ⟨700, by norm_num⟩ ⟨500, by norm_num⟩⟩

/-! ### Position ledger (recordTrade's fill application) — claim C2 -/

/-- The position/average-cost update applied by `recordTrade` for one
outcome: a BUY adds shares and blends `avgCost` volume-weighted; a SELL
clamps shares at 0 and keeps `avgCost` while shares remain, resetting it
to 0 when the position empties.  Returns `(nextPos, nextAvg)`. -/
def applyFillPA (side : Side) (size tradePrice prevPos prevAvg : ℚ) : ℚ × ℚ :=
  let nextPos := match side with
    | .buy => prevPos + size
    | .sell => max 0 (prevPos - size)
  let nextAvg := match side with
    | .buy => if 0 < nextPos then ((prevAvg * prevPos) + (tradePrice * size)) / nextPos else 0
    | .sell => if 0 < nextPos then prevAvg else 0
  (nextPos, nextAvg)

/-- `recordTrade`'s guard around the ledger mutation: the fill is applied
only when the filled size is a positive (finite) number (the trade price
is finite in every modelled path). -/
def recordFill (side : Side) (size tradePrice pos avg : ℚ) : ℚ × ℚ :=
  if 0 < size then applyFillPA side size tradePrice pos avg else (pos, avg)

/-- A sequence of fills applied to one outcome's `(shares, avgCost)`. -/
def applyFills (fills : List (Side × ℚ × ℚ)) (st : ℚ × ℚ) : ℚ × ℚ :=
  fills.foldl (fun pa f => recordFill f.1 f.2.1 f.2.2 pa.1 pa.2) st

theorem recordFill_nonneg (side : Side) (size price pos avg : ℚ) (h : 0 ≤ pos) :
    0 ≤ (recordFill side size price pos avg).1 := by
  unfold recordFill applyFillPA
  split_ifs with h1
  · cases side with
    | buy => dsimp only; linarith
    | sell => dsimp only; exact le_max_left 0 _
  · exact h

/-- Claim C2 (amended).  After any sequence of fills the share count is
still nonnegative; a SELL leaves `avgCost` unchanged whenever shares
remain positive after the fill (`size < shares`), and a SELL never
increases the share count.  (A SELL that empties the position resets
`avgCost` to 0 — see the counterexample against the unconditional
claim.) -/
theorem c2_ledger_amended :
    (∀ (fills : List (Side × ℚ × ℚ)) (pos avg : ℚ), 0 ≤ pos →
        0 ≤ (applyFills fills (pos, avg)).1) ∧
    (∀ (size price pos avg : ℚ), size < pos →
        (recordFill .sell size price pos avg).2 = avg) ∧
    (∀ (size price pos avg : ℚ), 0 ≤ pos →
        (recordFill .sell size price pos avg).1 ≤ pos) := by
  refine ⟨?_, ?_, ?_⟩
  · intro fills
    induction fills with
    | nil => intro pos avg h; exact h
    | cons f rest ih =>
      intro pos avg h
      have hstep : 0 ≤ (recordFill f.1 f.2.1 f.2.2 pos avg).1 :=
        recordFill_nonneg f.1 f.2.1 f.2.2 pos avg h
      have : applyFills (f :: rest) (pos, avg)
          = applyFills rest (recordFill f.1 f.2.1 f.2.2 pos avg) := by
        unfold applyFills
        rfl
      rw [this]
      have := ih (recordFill f.1 f.2.1 f.2.2 pos avg).1 (recordFill f.1 f.2.1 f.2.2 pos avg).2 hstep
      simpa using this
  · intro size price pos avg hlt
    unfold recordFill applyFillPA
    split_ifs with h1
    · dsimp only
      rw [if_pos]
      have : 0 < pos - size := by linarith
      calc (0:ℚ) < pos - size := this
      _ ≤ max 0 (pos - size) := le_max_right 0 _
    · rfl
  · intro size price pos avg hpos
    unfold recordFill applyFillPA
    split_ifs with h1
    · dsimp only
      exact max_le hpos (by linarith)
    · exact le_refl pos

/-- Claim C2, counterexample to the claim as stated: from the reachable
ledger state after BUY 5 @ 0.5 (shares 5, avgCost 0.5), a SELL of the
whole position at price 0.6 resets avgCost to 0 ≠ 0.5 — so a SELL does
not always leave `avgCost` unchanged. -/
theorem c2_counterexample :
    (applyFills [(Side.buy, 5, 1 / 2)] (0, 0)) = (5, 1 / 2) ∧
    (recordFill .sell 5 (3 / 5)
        (applyFills [(Side.buy, 5, 1 / 2)] (0, 0)).1
        (applyFills [(Side.buy, 5, 1 / 2)] (0, 0)).2).2
      ≠ (applyFills [(Side.buy, 5, 1 / 2)] (0, 0)).2 := by
  with_unfolding_all decide

/-- Witness for C2: two BUY fills then a partial SELL keep shares ≥ 0; a
SELL of 3 < 5 shares leaves avgCost unchanged; a SELL never increases the
share count. -/
theorem c2_ledger_amended_witness :
    (0 ≤ (5:ℚ) ∧ (3:ℚ) < 5) ∧
    (0 ≤ (applyFills [(Side.buy, 5, 1 / 2), (Side.sell, 3, 3 / 5)] (5, 1 / 2)).1 ∧
      (recordFill .sell 3 (3 / 5) 5 (1 / 2)).2 = 1 / 2 ∧
      (recordFill .sell 3 (3 / 5) 5 (1 / 2)).1 ≤ 5) :=
  ⟨⟨by norm_num, by norm_num⟩,
    c2_ledger_amended.1 [(Side.buy, 5, 1 / 2), (Side.sell, 3, 3 / 5)] 5 (1 / 2) (by norm_num),
    c2_ledger_amended.2.1 3 (3 / 5) 5 (1 / 2) (by norm_num),
    c2_ledger_amended.2.2 3 (3 / 5) 5 (1 / 2) (by norm_num)⟩

/-! ### The trading engine: data model

The tick-evaluation effect closes over the component's rendered values.
Quantities whose computation involves transcendental math
(`impliedVolScore`, `normInv`, `Math.exp/log/sqrt`) — the adjusted
thresholds `buyRatioMinAdj`/`sellRatioMinAdj`/`minMomentumAdj`, the
volatility/time size damper `sizeAdjust`, the spread limits, and the
late-window-scaled `effectiveSettlementBuffer`/`effectiveCapMult` — are
taken as inputs of the embedding (fields of `Env`), exactly as the
effect reads them from the surrounding render; everything downstream of
them is rational and is embedded from the source. -/

/-- Trade-record status. -/
inductive Status where
  | filled
  | partialFill
  | noFill
  | skipped
  | error
  | sim
deriving DecidableEq

/-- Record mode. -/
inductive Mode where
  | live
  | sim
deriving DecidableEq

/-- The `threshold` field a trade record carries: a numeric ratio
threshold, or the literal markers used by the doji-unwind, rebalance and
hedge paths. -/
inductive Thresh where
  | num (q : ℚ)
  | doji
  | rebalance
  | hedgeBand (lo hi : ℚ)
deriving DecidableEq

/-- The annotation `executeTrade` appends to a reason string
(`· missing tokenId`, `· price out of tradable range`, ...). -/
inductive Note where
  | missingTokenId
  | priceOutOfTradableRange
  | invalidAmount
  | buyAmountBelowMin
  | sellNotionalBelowMin
  | apiErrorText
  | thrownError
deriving DecidableEq

/-- The base reason a trade was attempted (the dynamic numbers the source
interpolates into the string are diagnostics, not decision inputs). -/
inductive BaseReason where
  | signal (ratioPart winnerBuyPart : Bool)
  | dojiUnwind
  | rebalanceSellLoser
  | rebalanceBuyWinner
  | hedge (of : Outcome)
deriving DecidableEq

/-- A reason string: base reason plus at most one appended note. -/
structure TradeReason where
  base : BaseReason
  note : Option Note := none
deriving DecidableEq

/-- A point of a ratio time-series (`{time, value}`). -/
structure Point where
  time : ℚ
  value : ℚ
deriving DecidableEq

/-- A `TradeRecord` log entry (the random id suffix is modelled by a
per-engine counter; the constant `asset` tag is omitted). -/
structure Entry where
  id : ℕ
  time : ℚ
  outcome : Outcome
  side : Side
  price : ℚ
  ratio : Option ℚ
  momentum : Option ℚ
  size : ℚ
  requestedSize : ℚ
  notional : ℚ
  threshold : Thresh
  reason : TradeReason
  positionAfter : ℚ
  isHedge : Bool
  hedgeOf : Option ℕ
  status : Status
  mode : Mode
  orderId : Option ℕ
  apiAttempted : Bool
deriving DecidableEq

/-- Arguments of an `executeTrade` invocation. -/
structure CallArgs where
  outcome : Outcome
  side : Side
  price : ℚ
  ratio : Option ℚ
  momentum : Option ℚ
  threshold : Thresh
  reason : BaseReason
  isHedge : Bool := false
  hedgeOf : Option ℕ := none
  sizeOverride : Option ℚ := none
deriving DecidableEq

/-- An order submission sent to `/api/trade/limit` (constant fields such
as `orderType: FAK` omitted). -/
structure SubmitReq where
  tokenId : ℕ
  side : Side
  price : ℚ
  amount : ℚ
deriving DecidableEq

/-- Asset type reported in a 409 response's details. -/
inductive AssetType where
  | collateral
  | conditional
deriving DecidableEq

/-- One API response for a submission.  Error-text string matching
(`isFakNoMatchError`, `isInsufficientBalanceAllowanceError`,
`isPriceOutOfRangeError`) is abstracted into the three booleans. -/
inductive ApiOutcome where
  | httpError (isNoMatch isInsufficient isOutOfRange is409 : Bool)
      (assetType : Option AssetType) (orderId : Option ℕ)
  | success (orderId : Option ℕ) (filledSize : Option ℚ) (avgPrice : Option ℚ)
  | thrown
deriving DecidableEq

/-- A polled conditional-token balance cache entry. -/
structure Bal where
  balance : ℚ
  allowance : ℚ
  available : ℚ
  ts : ℚ
deriving DecidableEq

/-- Rebalance action. -/
inductive RebAction where
  | sell
  | buy
deriving DecidableEq

/-- `rebalanceMode` configuration. -/
inductive RebMode where
  | sellFirst
  | buyFirst
  | balanced
deriving DecidableEq

/-- Keys of the per-signal cooldown map `lastTradeRef`
(`up-buy`, ..., `rebalance-doji`, `rebalance-<action>-<winner>`). -/
inductive TradeKey where
  | sig (o : Outcome) (s : Side)
  | rebalanceDoji
  | rebalanceAct (a : RebAction) (w : Outcome)
deriving DecidableEq

/-- Key of the per-token-and-side retry state maps. -/
def RetryKey : Type := ℕ × Side
deriving instance DecidableEq for RetryKey

/-- Per-outcome rational state (`positionsRef`, `avgCostRef`). -/
structure OutcomeMap where
  up : ℚ
  down : ℚ
deriving DecidableEq

def OutcomeMap.get (m : OutcomeMap) : Outcome → ℚ
  | .up => m.up
  | .down => m.down

def OutcomeMap.set (m : OutcomeMap) : Outcome → ℚ → OutcomeMap
  | .up, v => { m with up := v }
  | .down, v => { m with down := v }

/-- `cashFlowRef`. -/
structure CashFlow where
  spent : ℚ
  received : ℚ
deriving DecidableEq

/-- The four ratio time-series. -/
structure Series where
  upBuy : List Point
  upSell : List Point
  downBuy : List Point
  downSell : List Point
deriving DecidableEq

/-- Association-list lookup with default (newest binding first). -/
def lookupD {κ : Type} [DecidableEq κ] (m : List (κ × ℚ)) (k : κ) (d : ℚ) : ℚ :=
  match m.find? (fun kv => decide (kv.1 = k)) with
  | some kv => kv.2
  | none => d

/-- Association-list update (cons a fresh binding). -/
def setD {κ : Type} [DecidableEq κ] (m : List (κ × ℚ)) (k : κ) (v : ℚ) : List (κ × ℚ) :=
  (k, v) :: m

/-- Balance-cache lookup. -/
def lookupBal (m : List (ℕ × Bal)) (k : ℕ) : Option Bal :=
  match m.find? (fun kv => decide (kv.1 = k)) with
  | some kv => some kv.2
  | none => none

def setBal (m : List (ℕ × Bal)) (k : ℕ) (v : Bal) : List (ℕ × Bal) :=
  (k, v) :: m

/-- The environment a tick evaluation closes over: quotes, token ids,
window times, configuration-independent render products, and the two
oracles (balance endpoint and order endpoint responses). -/
structure Env where
  upBid : Option ℚ
  upAsk : Option ℚ
  downBid : Option ℚ
  downAsk : Option ℚ
  upTokenId : Option ℕ
  downTokenId : Option ℕ
  endMs : Option ℚ
  nowMs : ℚ
  timeLeftAtRender : Option ℚ
  liveAllowed : Bool
  tradeActive : Bool
  buyRatioMinAdj : ℚ
  sellRatioMinAdj : ℚ
  minMomentumAdj : ℚ
  sizeAdjust : ℚ
  upSpreadLimit : ℚ
  downSpreadLimit : ℚ
  effectiveSettlementBuffer : ℚ
  effectiveCapMult : ℚ
  balancePollMs : ℚ
  balanceStaleMs : ℚ
  balanceOracle : ℕ → Option (ℚ × ℚ)

/-- The user-set controls the engine reads (UI state).  `sizeScale` is
the exponent of `Math.pow(multiplier, sizeScale)`; it is modelled as a
natural number so the power stays rational. -/
structure Config where
  momentumWindowSec : ℚ
  baseSize : ℚ
  maxSize : ℚ
  cooldownSec : ℚ
  sizeScale : ℕ
  hedgeEnabled : Bool
  hedgeRatioMin : ℚ
  hedgeRatioMax : ℚ
  hedgeSizeMult : ℚ
  winnerBuyMinPrice : ℚ
  winnerBuyRequireFavored : Bool
  endClampLoserBuySec : ℚ
  endClampWinnerSellSec : ℚ
  rebalanceMode : RebMode
  maxRebalanceSizeMult : ℚ
  flipRebalanceEnabled : Bool
  rebalanceIgnoreCooldown : Bool
  lateRebalanceOverride : Bool
  dojiThreshold : ℚ
  dojiSizeMult : ℚ
  dojiAllowBuys : Bool
  lateDojiUnwind : Bool
  lateWindowSec : ℚ
deriving DecidableEq

/-- Per-signal enablement flags (part of the UI state). -/
structure Enabled where
  upBuy : Bool
  upSell : Bool
  downBuy : Bool
  downSell : Bool
deriving DecidableEq

/-- The engine's mutable refs.  The final three fields (`calls`,
`submissions`, `tickEntries`) are observation-only instrumentation: they
record, newest first, the `executeTrade` invocations, the API
submissions, and the entries created during the current tick; nothing in
the embedded logic reads them. -/
structure TState where
  positions : OutcomeMap
  avgCost : OutcomeMap
  cashFlow : CashFlow
  trades : List Entry
  lastTrade : List (TradeKey × ℚ)
  busy : Bool
  retryAfter : ℚ
  noMatchRetry : List (RetryKey × ℚ)
  priceNudge : List (RetryKey × ℚ)
  lastWinnerSide : Option Outcome
  condAvail : List (ℕ × Bal)
  series : Series
  timeLeftRef : Option ℚ
  nextId : ℕ
  apiOracle : List ApiOutcome
  calls : List CallArgs
  submissions : List SubmitReq
  tickEntries : List Entry
deriving DecidableEq

/-! ### Quote/ratio helpers -/

/-- `buyPayoutRatio(price) = (1 - price) / price`, null for non-finite or
non-positive price. -/
def buyPayoutRatio (price : Option ℚ) : Option ℚ :=
  match price with
  | none => none
  | some p => if p ≤ 0 then none else some ((1 - p) / p)

/-- `sellPayoutRatio(price) = price / (1 - price)`, null for non-finite
price or price ≥ 1. -/
def sellPayoutRatio (price : Option ℚ) : Option ℚ :=
  match price with
  | none => none
  | some p => if 1 ≤ p then none else some (p / (1 - p))

/-- `midPrice(bid, ask)`. -/
def midPriceO (bid ask : Option ℚ) : Option ℚ :=
  match bid, ask with
  | some b, some a => some ((b + a) / 2)
  | some b, none => some b
  | none, some a => some a
  | none, none => none

def upMidOf (env : Env) : Option ℚ := midPriceO env.upBid env.upAsk

def downMidOf (env : Env) : Option ℚ := midPriceO env.downBid env.downAsk

/-- `dojiActive`: |upMid − downMid| ≤ dojiThreshold when both mids exist. -/
def dojiActiveB (env : Env) (cfg : Config) : Bool :=
  match upMidOf env, downMidOf env with
  | some u, some d => (if u ≤ d then d - u else u - d) ≤ cfg.dojiThreshold
  | _, _ => false

/-- `lateWindowActive`: timeLeft (the rendered state value) ≤ lateWindowSec. -/
def lateWindowActiveB (env : Env) (cfg : Config) : Bool :=
  match env.timeLeftAtRender with
  | some t => t ≤ cfg.lateWindowSec
  | none => false

/-- `upSpread` / `downSpread` (ask − bid when both quotes exist). -/
def spreadOf (ask bid : Option ℚ) : Option ℚ :=
  match ask, bid with
  | some a, some b => some (a - b)
  | _, _ => none

/-- `upSpreadOk = Number.isFinite(upSpread) && upSpread <= upSpreadLimit`. -/
def upSpreadOkB (env : Env) : Bool :=
  match spreadOf env.upAsk env.upBid with
  | some s => s ≤ env.upSpreadLimit
  | none => false

def downSpreadOkB (env : Env) : Bool :=
  match spreadOf env.downAsk env.downBid with
  | some s => s ≤ env.downSpreadLimit
  | none => false

/-- `computeMomentum(series, windowSec)`: slope between the last point
and the most recent point at or before `lastTime − windowSec` (falling
back to the first point), undefined for fewer than two samples. -/
def computeMomentum (series : List Point) (windowSec : ℚ) : Option ℚ :=
  if series.length < 2 then none else
  match series.getLast?, series.head? with
  | some last, some first =>
    let cutoff := last.time - windowSec
    let anchor := match series.reverse.find? (fun p => decide (p.time ≤ cutoff)) with
      | some p => p
      | none => first
    let dt := max 1 (last.time - anchor.time)
    some ((last.value - anchor.value) / dt)
  | _, _ => none

/-- `appendPoint(series, point)`: replace the last point at an equal
timestamp, else push, then trim to `RATIO_POINTS_LIMIT`. -/
def appendPoint (series : List Point) (p : Point) : List Point :=
  let next := match series.getLast? with
    | some last => if last.time = p.time then series.dropLast ++ [p] else series ++ [p]
    | none => [p]
  if RATIO_POINTS_LIMIT < next.length then next.drop (next.length - RATIO_POINTS_LIMIT) else next

/-- `appendPoint` is a no-op when the ratio is null (non-finite value). -/
def appendPointO (series : List Point) (time : ℚ) (value : Option ℚ) : List Point :=
  match value with
  | none => series
  | some v => appendPoint series ⟨time, v⟩

/-! ### Order executor -/

def tokenIdFor (env : Env) : Outcome → Option ℕ
  | .up => env.upTokenId
  | .down => env.downTokenId

/-- The BBO input an order is priced against: the bid for SELL, the ask
for BUY (so the limit stays marketable). -/
def bboFor (env : Env) (side : Side) (outcome : Outcome) : Option ℚ :=
  match side, outcome with
  | .sell, .up => env.upBid
  | .sell, .down => env.downBid
  | .buy, .up => env.upAsk
  | .buy, .down => env.downAsk

/-- `refreshConditionalBalance(tokenId, {force})`: skip when fresh and not
forced; on fetch success cache `{balance, allowance, available, ts}`,
with `available = max(0, min(balance, allowance))`; on failure leave the
cache unchanged. -/
def refreshConditionalBalance (env : Env) (tid : ℕ) (force : Bool) (st : TState) : TState :=
  let fresh : Bool := match lookupBal st.condAvail tid with
    | some e => decide (env.nowMs - e.ts < env.balancePollMs)
    | none => false
  if ¬force ∧ fresh then st
  else match env.balanceOracle tid with
    | none => st
    | some (b, al) =>
      {st with condAvail := (setBal st.condAvail tid
        ⟨b, al, max 0 (min b al), env.nowMs⟩)}

/-- The staleness-guarded forced balance refresh `executeTrade` performs
before sizing a SELL. -/
def maybeRefreshForSell (env : Env) (side : Side) (tokenId : Option ℕ) (st : TState) : TState :=
  match side, tokenId with
  | .sell, some tid =>
    let stale : Bool := match lookupBal st.condAvail tid with
      | some c => decide (env.balanceStaleMs < env.nowMs - c.ts)
      | none => true
    if stale then refreshConditionalBalance env tid true st else st
  | _, _ => st

/-- `sizeFromRatio(ratio, threshold, side, outcome)`: base size scaled by
the volatility/time damper, the doji multiplier, and
`max(1, ratio/threshold)^sizeScale`, then normalized. -/
def sizeFromRatio (env : Env) (cfg : Config) (st : TState) (ratio : Option ℚ)
    (threshold : Thresh) (side : Side) (outcome : Outcome) : ℚ :=
  let dojiMult : ℚ := match side with
    | .buy => if dojiActiveB env cfg then (if cfg.dojiAllowBuys then cfg.dojiSizeMult else 0) else 1
    | .sell => 1
  let available := st.positions.get outcome
  match ratio, threshold with
  | some r, .num t =>
    if t ≤ 0 then
      normalizeTradeSize (cfg.baseSize * env.sizeAdjust * dojiMult) side (bboFor env side outcome)
        (some cfg.maxSize) (some available) LIVE_MIN_SHARES LIVE_MIN_NOTIONAL_USD
    else
      let sized := cfg.baseSize * env.sizeAdjust * dojiMult * (max 1 (r / t)) ^ cfg.sizeScale
      normalizeTradeSize sized side (bboFor env side outcome)
        (some cfg.maxSize) (some available) LIVE_MIN_SHARES LIVE_MIN_NOTIONAL_USD
  | _, _ =>
    normalizeTradeSize (cfg.baseSize * env.sizeAdjust * dojiMult) side (bboFor env side outcome)
      (some cfg.maxSize) (some available) LIVE_MIN_SHARES LIVE_MIN_NOTIONAL_USD

/-- The arguments `executeTrade` hands to `recordTrade`. -/
structure RecordArgs where
  outcome : Outcome
  side : Side
  price : ℚ
  ratio : Option ℚ
  momentum : Option ℚ
  threshold : Thresh
  reason : TradeReason
  isHedge : Bool
  hedgeOf : Option ℕ
  requestedSize : ℚ
  filledSize : Option ℚ
  avgPrice : Option ℚ
  status : Status
  mode : Mode
  orderId : Option ℕ
  apiAttempted : Bool
deriving DecidableEq

/-- `recordTrade`: append one entry to the trade log (ring-capped at
2000) and, exactly when the applied size is positive (with the finite
trade price), mutate the position, average cost and cash flow. -/
def recordTrade (ra : RecordArgs) (nowSec : ℚ) (st : TState) : Entry × TState :=
  let desiredSize := ra.requestedSize
  let tradePrice := match ra.avgPrice with
    | some ap => ap
    | none => ra.price
  let size := match ra.filledSize with
    | some f => f
    | none => desiredSize
  let notional := if 0 < size then size * tradePrice else 0
  let st1 := if 0 < size then
      let pa := applyFillPA ra.side size tradePrice
        (st.positions.get ra.outcome) (st.avgCost.get ra.outcome)
      let nextCash := match ra.side with
        | .buy => { st.cashFlow with spent := st.cashFlow.spent + notional }
        | .sell => { st.cashFlow with received := st.cashFlow.received + notional }
      {st with positions := st.positions.set ra.outcome pa.1,
               avgCost := st.avgCost.set ra.outcome pa.2,
               cashFlow := nextCash}
    else st
  let entry : Entry := {
    id := st.nextId
    time := nowSec
    outcome := ra.outcome
    side := ra.side
    price := tradePrice
    ratio := ra.ratio
    momentum := ra.momentum
    size := if 0 < size then size else 0
    requestedSize := desiredSize
    notional := notional
    threshold := ra.threshold
    reason := ra.reason
    positionAfter := st1.positions.get ra.outcome
    isHedge := ra.isHedge
    hedgeOf := ra.hedgeOf
    status := ra.status
    mode := ra.mode
    orderId := ra.orderId
    apiAttempted := ra.apiAttempted }
  (entry, {st1 with trades := (entry :: st1.trades).take 2000,
                    tickEntries := entry :: st1.tickEntries,
                    nextId := st1.nextId + 1})

/-- `nowSec = Math.floor(Date.now() / 1000)`. -/
def nowSecOf (env : Env) : ℚ := (floorQ (env.nowMs / 1000) : ℤ)

/-- The submission price: directional 2-decimal rounding of the basis
price (BUY up, SELL down), the cumulative nudge applied in the marketable
direction, rounded and clamped to the tradable range. -/
def computeSubmitPrice (side : Side) (basisPrice nudge : ℚ) : ℚ :=
  let baseSubmitPrice := match side with
    | .sell => floorTo2 basisPrice
    | .buy => ceilTo2 basisPrice
  let nudged := match side with
    | .sell => baseSubmitPrice - nudge
    | .buy => baseSubmitPrice + nudge
  clampQ (roundTo2 nudged) MIN_BUY_PRICE MAX_BUY_PRICE

/-- The shared FAK no-match reaction: push the per-key no-match retry
timestamp forward and bump the per-key price nudge by one tick, capped. -/
def applyNoMatchBackoff (env : Env) (tid : ℕ) (sd : Side) (st : TState) : TState :=
  {st with
    noMatchRetry := (setD st.noMatchRetry (tid, sd)
      (max (lookupD st.noMatchRetry (tid, sd) 0)
        (env.nowMs + LIVE_RETRY_BACKOFF_FAK_NO_MATCH_MS))),
    priceNudge := (setD st.priceNudge (tid, sd)
      (clampQ (lookupD st.priceNudge (tid, sd) 0 + 1 / 100) 0 (5 / 100)))}

/-- The nudge reset after a fill (only written when it was positive). -/
def applyFillNudgeReset (tid : ℕ) (sd : Side) (st : TState) : TState :=
  if 0 < lookupD st.priceNudge (tid, sd) 0
  then {st with priceNudge := setD st.priceNudge (tid, sd) 0}
  else st

/-- HTTP-error stage 1: the FAK no-match backoff and nudge bump. -/
def httpStageNoMatch (env : Env) (tid : ℕ) (sd : Side) (b : Bool) (st : TState) : TState :=
  if b then applyNoMatchBackoff env tid sd st else st

/-- HTTP-error stage 2: insufficient-balance global backoff (longer for
BUY/collateral), plus a forced conditional-balance refresh on SELL. -/
def httpStageInsufficient (env : Env) (tid : ℕ) (sd : Side) (b : Bool) (st : TState) : TState :=
  if b then
    let st1 := {st with retryAfter := (max st.retryAfter
      (env.nowMs + (if sd = .buy then LIVE_RETRY_BACKOFF_COLLATERAL_MS
        else LIVE_RETRY_BACKOFF_CONDITIONAL_MS)))}
    if sd = .sell then refreshConditionalBalance env tid true st1 else st1
  else st

/-- HTTP-error stage 3: price-out-of-range long per-key backoff. -/
def httpStageOutOfRange (env : Env) (tid : ℕ) (sd : Side) (b : Bool) (st : TState) : TState :=
  if b then
    {st with noMatchRetry := (setD st.noMatchRetry (tid, sd)
      (max (lookupD st.noMatchRetry (tid, sd) 0)
        (env.nowMs + LIVE_RETRY_BACKOFF_INVALID_PRICE_MS)))}
  else st

/-- HTTP-error stage 4: 409 global backoff keyed on the reported asset type. -/
def httpStage409 (env : Env) (b : Bool) (assetType : Option AssetType) (st : TState) : TState :=
  if b then
    {st with retryAfter := (max st.retryAfter
      (env.nowMs + (match assetType with
        | some .collateral => LIVE_RETRY_BACKOFF_COLLATERAL_MS
        | some .conditional => LIVE_RETRY_BACKOFF_CONDITIONAL_MS
        | none => LIVE_RETRY_BACKOFF_MS)))}
  else st

/-- The error-classification reactions of the HTTP-error path, applied in
source order. -/
def applyHttpErrorBackoff (env : Env) (tid : ℕ) (sd : Side)
    (isNoMatch isInsufficient isOutOfRange is409 : Bool)
    (assetType : Option AssetType) (st : TState) : TState :=
  httpStage409 env is409 assetType
    (httpStageOutOfRange env tid sd isOutOfRange
      (httpStageInsufficient env tid sd isInsufficient
        (httpStageNoMatch env tid sd isNoMatch st)))

/-- The basis price of an `executeTrade` attempt: the side's best
bid/offer, falling back to the signal price. -/
def basisPriceOf (a : CallArgs) (env : Env) : ℚ :=
  match bboFor env a.side a.outcome with
  | some b => b
  | none => a.price

/-- The submitted amount: BUY sends notional (ceil to cents), SELL sends
shares (floor to cents). -/
def submitAmountOf (side : Side) (desiredSize submitPrice : ℚ) : ℚ :=
  match side with
  | .buy => ceilTo2 (desiredSize * submitPrice)
  | .sell => floorTo2 desiredSize

/-- The next oracle response (a thrown error when the list is empty). -/
def oracleHead (l : List ApiOutcome) : ApiOutcome :=
  match l with
  | r :: _ => r
  | [] => ApiOutcome.thrown

/-- The desired-size computation of `executeTrade` (raw size from the
override or the ratio sizing, the polled SELL balance, and the
`normalizeTradeSize` call), on the already-refreshed state. -/
def desiredSizeOf (a : CallArgs) (env : Env) (cfg : Config) (tokenId : Option ℕ)
    (submitPrice : ℚ) (st : TState) : ℚ :=
  let rawDesiredSize := match a.sizeOverride with
    | some s => s
    | none => sizeFromRatio env cfg st a.ratio a.threshold a.side a.outcome
  let polledAvailable : Option ℚ := match a.side, tokenId with
    | .sell, some tid => (lookupBal st.condAvail tid).map Bal.available
    | _, _ => none
  -- `Number(null) = 0` is finite, so a SELL without a cached polled
  -- balance sizes against 0: the local-position fallback is dead on SELL
  let effectiveAvailable := match a.side with
    | .sell => polledAvailable.getD 0
    | .buy => st.positions.get a.outcome
  normalizeTradeSize rawDesiredSize a.side (some submitPrice)
    (some cfg.maxSize) (some effectiveAvailable) LIVE_MIN_SHARES LIVE_MIN_NOTIONAL_USD

/-- `executeTrade`: price the order off the BBO with directional rounding
and the per-key nudge, normalize the size, then either record a sim fill,
or validate, submit and classify the API outcome, updating the retry and
nudge state.  Returns the created entry (`none` when the attempt was
silently dropped: zero size, busy flag, or an unexpired backoff). -/
def executeTrade (a : CallArgs) (env : Env) (cfg : Config) (st0 : TState) :
    Option Entry × TState :=
  let st := {st0 with calls := a :: st0.calls}
  let tokenId := tokenIdFor env a.outcome
  let basisPrice := basisPriceOf a env
  let nudge := match tokenId with
    | some tid => lookupD st.priceNudge (tid, a.side) 0
    | none => 0
  let submitPrice := computeSubmitPrice a.side basisPrice nudge
  -- SELL sizing prefers fresh polled conditional balances
  let st : TState := maybeRefreshForSell env a.side tokenId st
  let desiredSize := desiredSizeOf a env cfg tokenId submitPrice st
  if desiredSize ≤ 0 then (none, st) else
  let mode := if env.liveAllowed then Mode.live else Mode.sim
  if ¬env.liveAllowed then
    let r := recordTrade ⟨a.outcome, a.side, a.price, a.ratio, a.momentum, a.threshold,
      ⟨a.reason, none⟩, a.isHedge, a.hedgeOf, desiredSize, some desiredSize, some a.price,
      Status.sim, mode, none, false⟩ (nowSecOf env) st
    (some r.1, r.2)
  else if st.busy then (none, st) else
  match tokenId with
  | none =>
    let r := recordTrade ⟨a.outcome, a.side, a.price, a.ratio, a.momentum, a.threshold,
      ⟨a.reason, some .missingTokenId⟩, a.isHedge, a.hedgeOf, desiredSize, some 0, none,
      Status.skipped, mode, none, false⟩ (nowSecOf env) st
    (some r.1, r.2)
  | some tid =>
    if env.nowMs < st.retryAfter then (none, st) else
    if env.nowMs < lookupD st.noMatchRetry (tid, a.side) 0 then (none, st) else
    -- the busy flag is set for the submission and cleared in `finally`,
    -- leaving it unchanged in the returned state
    if isPriceOutOfTradableRange submitPrice then
      let st := {st with noMatchRetry := (setD st.noMatchRetry (tid, a.side)
        (max (lookupD st.noMatchRetry (tid, a.side) 0)
          (env.nowMs + LIVE_RETRY_BACKOFF_INVALID_PRICE_MS)))}
      let r := recordTrade ⟨a.outcome, a.side, a.price, a.ratio, a.momentum, a.threshold,
        ⟨a.reason, some .priceOutOfTradableRange⟩, a.isHedge, a.hedgeOf, desiredSize, some 0, none,
        Status.skipped, mode, none, false⟩ (nowSecOf env) st
      (some r.1, r.2)
    else
    let submitAmount := submitAmountOf a.side desiredSize submitPrice
    if submitPrice ≤ 0 ∨ submitAmount ≤ 0 then
      let r := recordTrade ⟨a.outcome, a.side, a.price, a.ratio, a.momentum, a.threshold,
        ⟨a.reason, some .invalidAmount⟩, a.isHedge, a.hedgeOf, desiredSize, some 0, none,
        Status.skipped, mode, none, false⟩ (nowSecOf env) st
      (some r.1, r.2)
    else if a.side = .buy ∧ isBelowMin submitAmount LIVE_MIN_NOTIONAL_USD then
      let r := recordTrade ⟨a.outcome, a.side, a.price, a.ratio, a.momentum, a.threshold,
        ⟨a.reason, some .buyAmountBelowMin⟩, a.isHedge, a.hedgeOf, desiredSize, some 0, none,
        Status.skipped, mode, none, false⟩ (nowSecOf env) st
      (some r.1, r.2)
    else if a.side = .sell ∧ isBelowMin (submitAmount * submitPrice) LIVE_MIN_NOTIONAL_USD then
      let r := recordTrade ⟨a.outcome, a.side, a.price, a.ratio, a.momentum, a.threshold,
        ⟨a.reason, some .sellNotionalBelowMin⟩, a.isHedge, a.hedgeOf, desiredSize, some 0, none,
        Status.skipped, mode, none, false⟩ (nowSecOf env) st
      (some r.1, r.2)
    else
      -- submission: consume the next oracle response
      let req : SubmitReq := ⟨tid, a.side, submitPrice, submitAmount⟩
      let resp := oracleHead st.apiOracle
      let st := {st with submissions := req :: st.submissions, apiOracle := st.apiOracle.drop 1}
      match resp with
      | .httpError isNoMatch isInsufficient isOutOfRange is409 assetType orderId =>
        let st := applyHttpErrorBackoff env tid a.side isNoMatch isInsufficient
          isOutOfRange is409 assetType st
        let r := recordTrade ⟨a.outcome, a.side, a.price, a.ratio, a.momentum, a.threshold,
          ⟨a.reason, some .apiErrorText⟩, a.isHedge, a.hedgeOf, desiredSize, some 0, none,
          Status.error, mode, orderId, true⟩ (nowSecOf env) st
        (some r.1, r.2)
      | .success orderId filledSize? avgPrice? =>
        let filledSize := max 0 (filledSize?.getD 0)
        let avgPrice := match avgPrice? with
          | some q => q
          | none => a.price
        let status := if 0 < filledSize
          then (if filledSize < desiredSize then Status.partialFill else .filled)
          else .noFill
        let st := if status = .noFill then applyNoMatchBackoff env tid a.side st
          else applyFillNudgeReset tid a.side st
        let r := recordTrade ⟨a.outcome, a.side, a.price, a.ratio, a.momentum, a.threshold,
          ⟨a.reason, none⟩, a.isHedge, a.hedgeOf, desiredSize, some filledSize, some avgPrice,
          status, mode, orderId, true⟩ (nowSecOf env) st
        (some r.1, r.2)
      | .thrown =>
        let r := recordTrade ⟨a.outcome, a.side, a.price, a.ratio, a.momentum, a.threshold,
          ⟨a.reason, some .thrownError⟩, a.isHedge, a.hedgeOf, desiredSize, some 0, none,
          Status.error, mode, none, true⟩ (nowSecOf env) st
        (some r.1, r.2)

/-! ### The per-tick trading evaluation (`runTrading` and its context) -/

/-- A candidate signal row of the `signals` array. -/
structure Signal where
  key : TradeKey
  enabled : Bool
  outcome : Outcome
  side : Side
  price : Option ℚ
  ratio : Option ℚ
  momentum : Option ℚ
  threshold : ℚ
  minMomentum : ℚ
  spreadOk : Bool
deriving DecidableEq

/-- `const requireFavoredPrimaryBuys = true` (source constant). -/
def requireFavoredPrimaryBuys : Bool := true

/-- The ratio gate: `signal.ratio >= signal.threshold` (the boundary
`ratio == threshold` passes). -/
def passesRatioGate (ratio threshold : ℚ) : Bool := threshold ≤ ratio

/-- Values the tick evaluation computes once before `runTrading`. -/
structure RunCtx where
  nowSec : ℚ
  next : Series
  nextTimeLeft : Option ℚ
  favoredOutcome : Option Outcome
  inLoserBuyClamp : Bool
  inWinnerHold : Bool
  upSpreadOk : Bool
  downSpreadOk : Bool
  winnerSide : Option Outcome
  loserSide : Option Outcome
  winnerShares : ℚ
  netSpentNow : ℚ
  settlementNow : Option ℚ
  capNow : Option ℚ
  winnerFlip : Bool
  rebalanceBypassSpread : Bool
  dojiNeutralActive : Bool

/-- Per-signal cooldown check `shouldTrade(key)`. -/
def shouldTrade (cfg : Config) (ctx : RunCtx) (st : TState) (k : TradeKey) : Bool :=
  cfg.cooldownSec ≤ ctx.nowSec - lookupD st.lastTrade k 0

/-- Lines 1512–1533 of the source: winner detection, flip detection and
the derived doji/rebalance flags (computed before `runTrading`). -/
def mkRunCtx (env : Env) (cfg : Config) (st : TState) (next : Series)
    (nextTimeLeft : Option ℚ) (nowSec : ℚ) : RunCtx :=
  let favoredOutcome : Option Outcome := match env.upAsk, env.downAsk with
    | some ua, some da => some (if da ≤ ua then .up else .down)
    | _, _ => none
  let inLoserBuyClamp : Bool := match nextTimeLeft with
    | some t => decide (t ≤ cfg.endClampLoserBuySec)
    | none => false
  let inWinnerHold : Bool := match nextTimeLeft with
    | some t => decide (t ≤ cfg.endClampWinnerSellSec)
    | none => false
  let winnerPriceUp : Option ℚ := match env.upBid with
    | some b => some b
    | none => upMidOf env
  let winnerPriceDown : Option ℚ := match env.downBid with
    | some b => some b
    | none => downMidOf env
  let winnerSide : Option Outcome := match winnerPriceUp, winnerPriceDown with
    | some u, some d => some (if d ≤ u then .up else .down)
    | _, _ => none
  let winnerShares : ℚ := match winnerSide with
    | some w => st.positions.get w
    | none => 0
  let netSpentNow := st.cashFlow.spent - st.cashFlow.received
  let winnerFlip : Bool := cfg.flipRebalanceEnabled && lateWindowActiveB env cfg
    && winnerSide.isSome && st.lastWinnerSide.isSome
    && decide (st.lastWinnerSide ≠ winnerSide)
  { nowSec := nowSec
    next := next
    nextTimeLeft := nextTimeLeft
    favoredOutcome := favoredOutcome
    inLoserBuyClamp := inLoserBuyClamp
    inWinnerHold := inWinnerHold
    upSpreadOk := upSpreadOkB env
    downSpreadOk := downSpreadOkB env
    winnerSide := winnerSide
    loserSide := winnerSide.map Outcome.opp
    winnerShares := winnerShares
    netSpentNow := netSpentNow
    settlementNow := winnerSide.map (fun _ => winnerShares - netSpentNow)
    capNow := winnerSide.map (fun _ => winnerShares * env.effectiveCapMult)
    winnerFlip := winnerFlip
    rebalanceBypassSpread := cfg.lateRebalanceOverride && lateWindowActiveB env cfg
    dojiNeutralActive := cfg.lateDojiUnwind && lateWindowActiveB env cfg && dojiActiveB env cfg }

/-- The outcome currently holding the larger notional (sold down first by
the doji unwind); ties go to Up (`upNotional >= downNotional`). -/
def dojiUnwindSide (st : TState) : Outcome :=
  if st.avgCost.down * st.positions.down ≤ st.avgCost.up * st.positions.up
  then .up else .down

/-- The late-window doji unwind (first block of `runTrading`).  Returns
`true` when it executed a trade (the source `return`s). -/
def dojiStep (env : Env) (cfg : Config) (ctx : RunCtx) (st : TState) : Bool × TState :=
  if ¬ctx.dojiNeutralActive then (false, st) else
  let unwindSide := dojiUnwindSide st
  let unwindShares := st.positions.get unwindSide
  let unwindSpreadOk := match unwindSide with
    | .up => ctx.upSpreadOk
    | .down => ctx.downSpreadOk
  match (match unwindSide with | .up => env.upBid | .down => env.downBid) with
  | none => (false, st)
  | some unwindBid =>
    let canUnwind := 0 < unwindBid ∧ 0 < unwindShares
      ∧ (ctx.rebalanceBypassSpread ∨ unwindSpreadOk)
    if ¬(canUnwind ∧ (cfg.rebalanceIgnoreCooldown ∨ shouldTrade cfg ctx st .rebalanceDoji))
    then (false, st) else
    let size := max 0 (min (min cfg.maxSize (cfg.baseSize * env.sizeAdjust * cfg.maxRebalanceSizeMult)) unwindShares)
    if ¬(0 < size) then (false, st) else
    let ratio := match unwindSide with
      | .up => sellPayoutRatio env.upBid
      | .down => sellPayoutRatio env.downBid
    let momentum := match unwindSide with
      | .up => computeMomentum ctx.next.upSell cfg.momentumWindowSec
      | .down => computeMomentum ctx.next.downSell cfg.momentumWindowSec
    let args : CallArgs := {
      outcome := unwindSide, side := .sell, price := unwindBid,
      ratio := ratio, momentum := momentum, threshold := .doji,
      reason := .dojiUnwind, sizeOverride := some size }
    match executeTrade args env cfg st with
    | (some _, st') =>
      (true, {st' with lastTrade := setD st'.lastTrade .rebalanceDoji ctx.nowSec})
    | (none, st') => (false, st')

/-- The solvency rebalance (second block of `runTrading`): trigger
detection, policy-driven action selection, the cap-override from buy to
sell, the flip/ignore-cooldown bypass, sizing, and execution.  Returns
`true` when a trade was executed (the source `return`s). -/
def rebalanceStep (env : Env) (cfg : Config) (ctx : RunCtx) (st : TState) : Bool × TState :=
  let needsRebalance : Bool := ctx.winnerSide.isSome &&
    (ctx.winnerFlip
      || (match ctx.settlementNow with
          | some s => decide (s < env.effectiveSettlementBuffer)
          | none => false)
      || (match ctx.capNow with
          | some c => decide (c < ctx.netSpentNow)
          | none => false))
  match ctx.winnerSide, ctx.loserSide with
  | some winner, some loser =>
    if ¬(needsRebalance = true) then (false, st) else
    let loserShares := st.positions.get loser
    let winnerAsk := match winner with | .up => env.upAsk | .down => env.downAsk
    let loserBid := match loser with | .up => env.upBid | .down => env.downBid
    let winnerSpreadOk := match winner with | .up => ctx.upSpreadOk | .down => ctx.downSpreadOk
    let loserSpreadOk := match loser with | .up => ctx.upSpreadOk | .down => ctx.downSpreadOk
    let canBuyWinner : Bool := (match winnerAsk with
        | some wa => decide (MIN_BUY_PRICE ≤ wa) && decide (wa < MAX_BUY_PRICE)
        | none => false)
      && (ctx.rebalanceBypassSpread || winnerSpreadOk)
    let canSellLoser : Bool := (match loserBid with
        | some lb => decide (0 < lb)
        | none => false)
      && decide (0 < loserShares) && (ctx.rebalanceBypassSpread || loserSpreadOk)
    let action0 : Option RebAction := match cfg.rebalanceMode with
      | .buyFirst =>
        if canBuyWinner then some .buy else if canSellLoser then some .sell else none
      | .balanced =>
        if canBuyWinner && canSellLoser then
          let buyGain : ℚ := max 0 (1 - winnerAsk.getD 0)
          let sellGain : ℚ := max 0 (loserBid.getD 0)
          some (if sellGain ≤ buyGain then .buy else .sell)
        else if canSellLoser then some .sell
        else if canBuyWinner then some .buy
        else none
      | .sellFirst =>
        if canSellLoser then some .sell else if canBuyWinner then some .buy else none
    let action : Option RebAction := match action0 with
      | some .buy =>
        if ctx.capNow.isSome
            && (match winnerAsk with
                | some wa => decide (env.effectiveCapMult ≤ wa)
                | none => false)
            && canSellLoser
        then some .sell else some .buy
      | x => x
    match action with
    | none => (false, st)
    | some act =>
      if ¬(cfg.rebalanceIgnoreCooldown ∨ ctx.winnerFlip
          ∨ shouldTrade cfg ctx st (.rebalanceAct act winner)) then (false, st) else
      let baseRebalanceSize := min cfg.maxSize (cfg.baseSize * env.sizeAdjust * cfg.maxRebalanceSizeMult)
      let gapBuffer := match ctx.settlementNow with
        | some s => max 0 (env.effectiveSettlementBuffer - s)
        | none => 0
      let gapCap := match ctx.capNow with
        | some c => max 0 (ctx.netSpentNow - c)
        | none => 0
      match act with
      | .sell =>
        if canSellLoser then
          let perShareGain := max (1 / 1000000) (loserBid.getD 0)
          let ns0 := max gapBuffer gapCap / perShareGain
          -- `(x) || baseRebalanceSize`: 0 is falsy in JS
          let neededShares := if ns0 = 0 then baseRebalanceSize else ns0
          let size := max 0 (min (min baseRebalanceSize neededShares) loserShares)
          if 0 < size then
            let ratio := match loser with
              | .up => sellPayoutRatio env.upBid
              | .down => sellPayoutRatio env.downBid
            let momentum := match loser with
              | .up => computeMomentum ctx.next.upSell cfg.momentumWindowSec
              | .down => computeMomentum ctx.next.downSell cfg.momentumWindowSec
            let args : CallArgs := {
              outcome := loser, side := .sell, price := loserBid.getD 0,
              ratio := ratio, momentum := momentum, threshold := .rebalance,
              reason := .rebalanceSellLoser, sizeOverride := some size }
            match executeTrade args env cfg st with
            | (some _, st') =>
              (true, {st' with lastTrade := setD st'.lastTrade (.rebalanceAct act winner) ctx.nowSec})
            | (none, st') => (false, st')
          else (false, st)
        else (false, st)
      | .buy =>
        if canBuyWinner then
          let perShareGain := max (1 / 1000000) (1 - winnerAsk.getD 0)
          let ns0 := gapBuffer / perShareGain
          let neededShares := if 0 < gapCap ∧ winnerAsk.getD 0 < env.effectiveCapMult
            then max ns0 (gapCap / max (1 / 1000000) (env.effectiveCapMult - winnerAsk.getD 0))
            else ns0
          let targetSize := min baseRebalanceSize
            (if neededShares = 0 then baseRebalanceSize else neededShares)
          let ratio := match winner with
            | .up => buyPayoutRatio env.upAsk
            | .down => buyPayoutRatio env.downAsk
          let momentum := match winner with
            | .up => computeMomentum ctx.next.upBuy cfg.momentumWindowSec
            | .down => computeMomentum ctx.next.downBuy cfg.momentumWindowSec
          let args : CallArgs := {
            outcome := winner, side := .buy, price := winnerAsk.getD 0,
            ratio := ratio, momentum := momentum, threshold := .rebalance,
            reason := .rebalanceBuyWinner, sizeOverride := some targetSize }
          match executeTrade args env cfg st with
          | (some _, st') =>
            (true, {st' with lastTrade := setD st'.lastTrade (.rebalanceAct act winner) ctx.nowSec})
          | (none, st') => (false, st')
        else (false, st)
  | _, _ => (false, st)

/-- The `signals` array (lines 1461–1510). -/
def mkSignals (env : Env) (cfg : Config) (en : Enabled) (ctx : RunCtx) : List Signal :=
  [ { key := .sig .up .buy, enabled := en.upBuy, outcome := .up, side := .buy,
      price := env.upAsk, ratio := buyPayoutRatio env.upAsk,
      momentum := computeMomentum ctx.next.upBuy cfg.momentumWindowSec,
      threshold := env.buyRatioMinAdj, minMomentum := env.minMomentumAdj,
      spreadOk := ctx.upSpreadOk },
    { key := .sig .up .sell, enabled := en.upSell, outcome := .up, side := .sell,
      price := env.upBid, ratio := sellPayoutRatio env.upBid,
      momentum := computeMomentum ctx.next.upSell cfg.momentumWindowSec,
      threshold := env.sellRatioMinAdj, minMomentum := env.minMomentumAdj,
      spreadOk := ctx.upSpreadOk },
    { key := .sig .down .buy, enabled := en.downBuy, outcome := .down, side := .buy,
      price := env.downAsk, ratio := buyPayoutRatio env.downAsk,
      momentum := computeMomentum ctx.next.downBuy cfg.momentumWindowSec,
      threshold := env.buyRatioMinAdj, minMomentum := env.minMomentumAdj,
      spreadOk := ctx.downSpreadOk },
    { key := .sig .down .sell, enabled := en.downSell, outcome := .down, side := .sell,
      price := env.downBid, ratio := sellPayoutRatio env.downBid,
      momentum := computeMomentum ctx.next.downSell cfg.momentumWindowSec,
      threshold := env.sellRatioMinAdj, minMomentum := env.minMomentumAdj,
      spreadOk := ctx.downSpreadOk } ]

/-- The conditional hedge that follows a non-hedge BUY whose status is
not no-fill/error (the tail of a signal-loop iteration). -/
def hedgeAfter (env : Env) (cfg : Config) (ctx : RunCtx) (entry : Entry)
    (lock : List Outcome) (st : TState) : List Outcome × TState :=
  if entry.isHedge ∨ entry.status = .noFill ∨ entry.status = .error then (lock, st) else
  if ¬cfg.hedgeEnabled ∨ entry.side ≠ .buy then (lock, st) else
  let hedgeOutcome := entry.outcome.opp
  let hedgePrice := match hedgeOutcome with | .up => env.upAsk | .down => env.downAsk
  match hedgePrice, buyPayoutRatio hedgePrice with
  | some hp, some hr =>
    let hedgeSpreadOk : Bool := match hedgeOutcome with
      | .up => ctx.upSpreadOk
      | .down => ctx.downSpreadOk
    if ¬(hedgeSpreadOk = true) then (lock, st) else
    if ctx.inLoserBuyClamp ∧ ctx.favoredOutcome.isSome
        ∧ ctx.favoredOutcome ≠ some hedgeOutcome then (lock, st) else
    if MAX_BUY_PRICE ≤ hp ∨ hp < MIN_BUY_PRICE then (lock, st) else
    if cfg.hedgeRatioMax < cfg.hedgeRatioMin then (lock, st) else
    if hr < cfg.hedgeRatioMin ∨ cfg.hedgeRatioMax < hr then (lock, st) else
    if cfg.hedgeSizeMult ≤ 0 then (lock, st) else
    let hedgeMomentum := match hedgeOutcome with
      | .up => computeMomentum ctx.next.upBuy cfg.momentumWindowSec
      | .down => computeMomentum ctx.next.downBuy cfg.momentumWindowSec
    let hargs : CallArgs := {
      outcome := hedgeOutcome, side := .buy, price := hp,
      ratio := some hr, momentum := hedgeMomentum,
      threshold := .hedgeBand cfg.hedgeRatioMin cfg.hedgeRatioMax,
      reason := .hedge entry.outcome, isHedge := true, hedgeOf := some entry.id,
      sizeOverride := some (min cfg.maxSize (entry.size * cfg.hedgeSizeMult)) }
    match executeTrade hargs env cfg st with
    | (_, st2) => (lock, st2)
  | _, _ => (lock, st)

/-- The executing tail of a signal-loop iteration: take the outcome lock,
stamp the cooldown, run the trade, then the conditional hedge. -/
def execSignal (env : Env) (cfg : Config) (ctx : RunCtx) (sig : Signal)
    (lock : List Outcome) (st : TState) (price ratio mom : ℚ)
    (passesRatio passesWinnerBuy : Bool) : List Outcome × TState :=
  let lock := sig.outcome :: lock
  let st := {st with lastTrade := setD st.lastTrade sig.key ctx.nowSec}
  let args : CallArgs := {
    outcome := sig.outcome, side := sig.side, price := price,
    ratio := some ratio, momentum := some mom, threshold := .num sig.threshold,
    reason := .signal passesRatio (passesWinnerBuy && !passesRatio) }
  match executeTrade args env cfg st with
  | (none, st) => (lock, st)
  | (some entry, st) => hedgeAfter env cfg ctx entry lock st

/-- One iteration of the signal loop: all gate checks, the outcome-level
lock, the trade execution, and the conditional hedge that follows a
non-hedge BUY whose status is not no-fill/error.  Returns the updated
lock and state. -/
def stepSignal (env : Env) (cfg : Config) (ctx : RunCtx) (sig : Signal)
    (lock : List Outcome) (st : TState) : List Outcome × TState :=
  if ¬sig.enabled then (lock, st) else
  match sig.price, sig.ratio with
  | some price, some ratio =>
    if ¬sig.spreadOk then (lock, st) else
    if sig.side = .buy ∧ dojiActiveB env cfg ∧ ¬cfg.dojiAllowBuys then (lock, st) else
    if sig.side = .buy ∧ (MAX_BUY_PRICE ≤ price ∨ price < MIN_BUY_PRICE) then (lock, st) else
    if sig.side = .buy ∧ requireFavoredPrimaryBuys ∧ ctx.favoredOutcome.isSome
        ∧ ctx.favoredOutcome ≠ some sig.outcome then (lock, st) else
    if sig.side = .sell ∧ st.positions.get sig.outcome ≤ 0 then (lock, st) else
    if sig.side = .buy ∧ ctx.inLoserBuyClamp ∧ ctx.favoredOutcome.isSome
        ∧ ctx.favoredOutcome ≠ some sig.outcome then (lock, st) else
    if sig.side = .sell ∧ ctx.inWinnerHold ∧ ctx.favoredOutcome.isSome
        ∧ ctx.favoredOutcome = some sig.outcome then (lock, st) else
    let passesRatio := passesRatioGate ratio sig.threshold
    let favored : Bool := match sig.outcome, env.upAsk, env.downAsk with
      | .up, some ua, some da => decide (da ≤ ua)
      | .down, some ua, some da => decide (ua ≤ da)
      | _, _, _ => false
    let passesWinnerBuy : Bool := (decide (sig.side = .buy))
      && decide (cfg.winnerBuyMinPrice ≤ price)
      && (!cfg.winnerBuyRequireFavored || favored)
    if sig.side = .buy ∧ ¬(passesRatio || passesWinnerBuy) then (lock, st) else
    if sig.side = .sell ∧ ¬passesRatio then (lock, st) else
    match sig.momentum with
    | none => (lock, st)
    | some mom =>
      if mom < sig.minMomentum then (lock, st) else
      if ¬shouldTrade cfg ctx st sig.key then (lock, st) else
      if sig.outcome ∈ lock then (lock, st) else
      execSignal env cfg ctx sig lock st price ratio mom passesRatio passesWinnerBuy
  | _, _ => (lock, st)

/-- The signal loop (`for (const signal of signals)`). -/
def signalLoop (env : Env) (cfg : Config) (ctx : RunCtx) :
    List Signal → List Outcome → TState → TState
  | [], _, st => st
  | sig :: rest, lock, st =>
    let r := stepSignal env cfg ctx sig lock st
    signalLoop env cfg ctx rest r.1 r.2

/-- `runTrading`: doji unwind first; if it did not fire, the solvency
rebalance; if that did not fire either, the normal signal loop. -/
def runTrading (env : Env) (cfg : Config) (en : Enabled) (ctx : RunCtx) (st : TState) : TState :=
  let d := dojiStep env cfg ctx st
  if d.1 then d.2 else
  let r := rebalanceStep env cfg ctx d.2
  if r.1 then r.2 else
  signalLoop env cfg ctx (mkSignals env cfg en ctx) [] r.2

/-- The whole tick-evaluation effect (source lines 982–1750): series
update, time-left update, the trade-active and busy guards, the run
context (winner/flip and end-window clamps), the `lastWinnerSideRef`
update, then `runTrading`.  The three instrumentation lists are reset at
tick start. -/
def tickEval (env : Env) (cfg : Config) (en : Enabled) (st0 : TState) : TState :=
  let st := {st0 with calls := [], submissions := [], tickEntries := []}
  if ¬(env.upAsk.isSome ∧ env.upBid.isSome ∧ env.downAsk.isSome ∧ env.downBid.isSome)
  then st else
  let nowSec : ℚ := nowSecOf env
  let next : Series := {
    upBuy := appendPointO st.series.upBuy nowSec (buyPayoutRatio env.upAsk)
    upSell := appendPointO st.series.upSell nowSec (sellPayoutRatio env.upBid)
    downBuy := appendPointO st.series.downBuy nowSec (buyPayoutRatio env.downAsk)
    downSell := appendPointO st.series.downSell nowSec (sellPayoutRatio env.downBid) }
  let nextTimeLeft : Option ℚ := match env.endMs with
    | some e => some (max 0 ((floorQ ((e - env.nowMs) / 1000) : ℤ) : ℚ))
    | none => none
  let st := {st with series := next, timeLeftRef := nextTimeLeft}
  if ¬env.tradeActive then st else
  if env.liveAllowed ∧ st.busy then st else
  let ctx := mkRunCtx env cfg st next nextTimeLeft nowSec
  let st := match ctx.winnerSide with
    | some w => {st with lastWinnerSide := some w}
    | none => st
  runTrading env cfg en ctx st

/-! ### Structural lemmas about `recordTrade` and `executeTrade` -/

theorem lookupD_setD (m : List (RetryKey × ℚ)) (k : RetryKey) (v d : ℚ) :
    lookupD (setD m k v) k d = v := by
  unfold lookupD setD
  rw [List.find?_cons_of_pos _ (by simp)]

theorem recordTrade_spec (ra : RecordArgs) (now : ℚ) (st : TState) :
    (recordTrade ra now st).1.status = ra.status ∧
    (recordTrade ra now st).1.isHedge = ra.isHedge ∧
    (recordTrade ra now st).1.hedgeOf = ra.hedgeOf ∧
    (recordTrade ra now st).1.side = ra.side ∧
    (recordTrade ra now st).1.outcome = ra.outcome ∧
    (recordTrade ra now st).1.reason = ra.reason ∧
    (recordTrade ra now st).1.id = st.nextId ∧
    (recordTrade ra now st).2.trades = ((recordTrade ra now st).1 :: st.trades).take 2000 ∧
    (recordTrade ra now st).2.tickEntries = (recordTrade ra now st).1 :: st.tickEntries ∧
    (recordTrade ra now st).2.calls = st.calls ∧
    (recordTrade ra now st).2.submissions = st.submissions ∧
    (recordTrade ra now st).2.priceNudge = st.priceNudge ∧
    (recordTrade ra now st).2.noMatchRetry = st.noMatchRetry ∧
    (recordTrade ra now st).2.apiOracle = st.apiOracle ∧
    (recordTrade ra now st).2.lastTrade = st.lastTrade ∧
    (recordTrade ra now st).2.busy = st.busy ∧
    (recordTrade ra now st).2.retryAfter = st.retryAfter ∧
    (recordTrade ra now st).2.condAvail = st.condAvail ∧
    (recordTrade ra now st).2.nextId = st.nextId + 1 := by
  unfold recordTrade
  dsimp only
  split_ifs <;>
    exact ⟨rfl, rfl, rfl, rfl, rfl, rfl, rfl, rfl, rfl, rfl, rfl, rfl, rfl, rfl, rfl, rfl,
      rfl, rfl, rfl⟩

theorem recordTrade_zero_fill (ra : RecordArgs) (now : ℚ) (st : TState)
    (h : (match ra.filledSize with | some f => f | none => ra.requestedSize) ≤ 0) :
    (recordTrade ra now st).2.positions = st.positions ∧
    (recordTrade ra now st).2.avgCost = st.avgCost ∧
    (recordTrade ra now st).2.cashFlow = st.cashFlow ∧
    (recordTrade ra now st).1.size = 0 := by
  unfold recordTrade
  dsimp only
  split_ifs with h1
  · exact absurd h1 (not_lt.mpr h)
  · exact ⟨rfl, rfl, rfl, rfl⟩

theorem recordTrade_pos_fill (ra : RecordArgs) (now : ℚ) (st : TState)
    (h : 0 < (match ra.filledSize with | some f => f | none => ra.requestedSize)) :
    (recordTrade ra now st).1.size
      = (match ra.filledSize with | some f => f | none => ra.requestedSize) := by
  unfold recordTrade
  dsimp only
  rw [if_pos h]

theorem refreshConditionalBalance_frame (env : Env) (tid : ℕ) (f : Bool) (st : TState) :
    ∃ c, refreshConditionalBalance env tid f st = {st with condAvail := c} := by
  unfold refreshConditionalBalance
  dsimp only
  split_ifs with h
  · exact ⟨st.condAvail, rfl⟩
  · split
    · exact ⟨st.condAvail, rfl⟩
    · exact ⟨_, rfl⟩

theorem maybeRefreshForSell_frame (env : Env) (sd : Side) (tok : Option ℕ) (st : TState) :
    ∃ c, maybeRefreshForSell env sd tok st = {st with condAvail := c} := by
  unfold maybeRefreshForSell
  cases sd with
  | buy => cases tok <;> exact ⟨st.condAvail, rfl⟩
  | sell =>
    cases tok with
    | none => exact ⟨st.condAvail, rfl⟩
    | some tid =>
      dsimp only
      split_ifs with h
      · exact refreshConditionalBalance_frame env tid true st
      · exact ⟨st.condAvail, rfl⟩

/-- The state components an `executeTrade` helper leaves untouched. -/
def CoreFrame (st s' : TState) : Prop :=
  s'.tickEntries = st.tickEntries ∧ s'.trades = st.trades ∧ s'.positions = st.positions ∧
  s'.avgCost = st.avgCost ∧ s'.cashFlow = st.cashFlow ∧ s'.submissions = st.submissions

theorem refreshConditionalBalance_coreFrame (env : Env) (tid : ℕ) (f : Bool) (st : TState) :
    CoreFrame st (refreshConditionalBalance env tid f st) := by
  obtain ⟨c, hc⟩ := refreshConditionalBalance_frame env tid f st
  rw [hc]
  exact ⟨rfl, rfl, rfl, rfl, rfl, rfl⟩

theorem applyFillNudgeReset_frame (tid : ℕ) (sd : Side) (st : TState) :
    CoreFrame st (applyFillNudgeReset tid sd st) ∧
    (applyFillNudgeReset tid sd st).noMatchRetry = st.noMatchRetry := by
  unfold applyFillNudgeReset CoreFrame
  split_ifs <;> exact ⟨⟨rfl, rfl, rfl, rfl, rfl, rfl⟩, rfl⟩

theorem applyFillNudgeReset_lookup (tid : ℕ) (sd : Side) (st : TState) :
    lookupD (applyFillNudgeReset tid sd st).priceNudge (tid, sd) 0
      = (if 0 < lookupD st.priceNudge (tid, sd) 0 then 0
         else lookupD st.priceNudge (tid, sd) 0) := by
  unfold applyFillNudgeReset
  split_ifs with h
  · exact lookupD_setD _ _ _ _
  · rfl

theorem CoreFrame.rfl (st : TState) : CoreFrame st st :=
  ⟨Eq.refl _, Eq.refl _, Eq.refl _, Eq.refl _, Eq.refl _, Eq.refl _⟩

theorem CoreFrame.trans {s1 s2 s3 : TState} (h1 : CoreFrame s1 s2) (h2 : CoreFrame s2 s3) :
    CoreFrame s1 s3 :=
  ⟨h2.1.trans h1.1, h2.2.1.trans h1.2.1, h2.2.2.1.trans h1.2.2.1,
   h2.2.2.2.1.trans h1.2.2.2.1, h2.2.2.2.2.1.trans h1.2.2.2.2.1,
   h2.2.2.2.2.2.trans h1.2.2.2.2.2⟩

theorem httpStageNoMatch_frame (env : Env) (tid : ℕ) (sd : Side) (b : Bool) (st : TState) :
    CoreFrame st (httpStageNoMatch env tid sd b st) := by
  unfold httpStageNoMatch applyNoMatchBackoff
  split_ifs <;> exact ⟨rfl, rfl, rfl, rfl, rfl, rfl⟩

theorem refreshConditionalBalance_proj (env : Env) (tid : ℕ) (f : Bool) (st : TState) :
    (refreshConditionalBalance env tid f st).priceNudge = st.priceNudge ∧
    (refreshConditionalBalance env tid f st).noMatchRetry = st.noMatchRetry := by
  obtain ⟨c, hc⟩ := refreshConditionalBalance_frame env tid f st
  rw [hc]
  exact ⟨rfl, rfl⟩

theorem httpStageInsufficient_frame (env : Env) (tid : ℕ) (sd : Side) (b : Bool) (st : TState) :
    CoreFrame st (httpStageInsufficient env tid sd b st) ∧
    (httpStageInsufficient env tid sd b st).priceNudge = st.priceNudge ∧
    (httpStageInsufficient env tid sd b st).noMatchRetry = st.noMatchRetry := by
  unfold httpStageInsufficient
  dsimp only
  split_ifs <;>
    first
      | exact ⟨⟨rfl, rfl, rfl, rfl, rfl, rfl⟩, rfl, rfl⟩
      | (refine ⟨CoreFrame.trans ⟨rfl, rfl, rfl, rfl, rfl, rfl⟩
            (refreshConditionalBalance_coreFrame _ _ _ _), ?_, ?_⟩ <;>
          first
            | rw [(refreshConditionalBalance_proj _ _ _ _).1]
            | rw [(refreshConditionalBalance_proj _ _ _ _).2])

theorem httpStageOutOfRange_frame (env : Env) (tid : ℕ) (sd : Side) (b : Bool) (st : TState) :
    CoreFrame st (httpStageOutOfRange env tid sd b st) ∧
    (httpStageOutOfRange env tid sd b st).priceNudge = st.priceNudge ∧
    lookupD st.noMatchRetry (tid, sd) 0
      ≤ lookupD (httpStageOutOfRange env tid sd b st).noMatchRetry (tid, sd) 0 := by
  unfold httpStageOutOfRange
  split_ifs
  · exact ⟨⟨rfl, rfl, rfl, rfl, rfl, rfl⟩, rfl, by rw [lookupD_setD]; exact le_max_left _ _⟩
  · exact ⟨⟨rfl, rfl, rfl, rfl, rfl, rfl⟩, rfl, le_refl _⟩

theorem httpStage409_frame (env : Env) (b : Bool) (at2 : Option AssetType) (st : TState) :
    CoreFrame st (httpStage409 env b at2 st) ∧
    (httpStage409 env b at2 st).priceNudge = st.priceNudge ∧
    (httpStage409 env b at2 st).noMatchRetry = st.noMatchRetry := by
  unfold httpStage409
  split_ifs <;> exact ⟨⟨rfl, rfl, rfl, rfl, rfl, rfl⟩, rfl, rfl⟩

theorem applyHttpErrorBackoff_frame (env : Env) (tid : ℕ) (sd : Side)
    (b1 b2 b3 b4 : Bool) (at2 : Option AssetType) (st : TState) :
    CoreFrame st (applyHttpErrorBackoff env tid sd b1 b2 b3 b4 at2 st) := by
  unfold applyHttpErrorBackoff
  exact CoreFrame.trans
    (CoreFrame.trans
      (CoreFrame.trans (httpStageNoMatch_frame env tid sd b1 st)
        (httpStageInsufficient_frame env tid sd b2 _).1)
      (httpStageOutOfRange_frame env tid sd b3 _).1)
    (httpStage409_frame env b4 at2 _).1

theorem applyHttpErrorBackoff_noMatch (env : Env) (tid : ℕ) (sd : Side)
    (b2 b3 b4 : Bool) (at2 : Option AssetType) (st : TState) :
    (applyHttpErrorBackoff env tid sd true b2 b3 b4 at2 st).priceNudge
      = setD st.priceNudge (tid, sd)
          (clampQ (lookupD st.priceNudge (tid, sd) 0 + 1 / 100) 0 (5 / 100)) ∧
    env.nowMs + LIVE_RETRY_BACKOFF_FAK_NO_MATCH_MS
      ≤ lookupD (applyHttpErrorBackoff env tid sd true b2 b3 b4 at2 st).noMatchRetry (tid, sd) 0 := by
  unfold applyHttpErrorBackoff
  have h1p : (httpStageNoMatch env tid sd true st).priceNudge
      = setD st.priceNudge (tid, sd)
        (clampQ (lookupD st.priceNudge (tid, sd) 0 + 1 / 100) 0 (5 / 100)) := by
    unfold httpStageNoMatch applyNoMatchBackoff
    rw [if_pos (by decide)]
  have h1r : env.nowMs + LIVE_RETRY_BACKOFF_FAK_NO_MATCH_MS
      ≤ lookupD (httpStageNoMatch env tid sd true st).noMatchRetry (tid, sd) 0 := by
    unfold httpStageNoMatch applyNoMatchBackoff
    rw [if_pos (by decide)]
    dsimp only
    rw [lookupD_setD]
    exact le_max_right _ _
  obtain ⟨_, hp2, hr2⟩ := httpStageInsufficient_frame env tid sd b2 (httpStageNoMatch env tid sd true st)
  obtain ⟨_, hp3, hr3⟩ := httpStageOutOfRange_frame env tid sd b3
    (httpStageInsufficient env tid sd b2 (httpStageNoMatch env tid sd true st))
  obtain ⟨_, hp4, hr4⟩ := httpStage409_frame env b4 at2
    (httpStageOutOfRange env tid sd b3
      (httpStageInsufficient env tid sd b2 (httpStageNoMatch env tid sd true st)))
  constructor
  · rw [hp4, hp3, hp2, h1p]
  · rw [hr4]
    calc env.nowMs + LIVE_RETRY_BACKOFF_FAK_NO_MATCH_MS
        ≤ lookupD (httpStageNoMatch env tid sd true st).noMatchRetry (tid, sd) 0 := h1r
    _ = lookupD (httpStageInsufficient env tid sd b2
          (httpStageNoMatch env tid sd true st)).noMatchRetry (tid, sd) 0 := by rw [hr2]
    _ ≤ _ := hr3

/-- What `executeTrade` guarantees when it returns no entry: nothing was
appended or submitted and the ledger and retry/nudge state are untouched
(only the balance cache and the call instrumentation may change). -/
def EtNone (st s' : TState) : Prop :=
  s'.tickEntries = st.tickEntries ∧ s'.trades = st.trades ∧
  s'.positions = st.positions ∧ s'.avgCost = st.avgCost ∧ s'.cashFlow = st.cashFlow ∧
  s'.submissions = st.submissions ∧ s'.priceNudge = st.priceNudge

/-- What `executeTrade` guarantees about a returned entry `e` and the
resulting state `s'`. -/
def EtSome (a : CallArgs) (env : Env) (st : TState) (e : Entry) (s' : TState) : Prop :=
  s'.tickEntries = e :: st.tickEntries ∧
  s'.trades = (e :: st.trades).take 2000 ∧
  e.isHedge = a.isHedge ∧ e.hedgeOf = a.hedgeOf ∧ e.side = a.side ∧ e.outcome = a.outcome ∧
  ((e.status = .filled ∨ e.status = .partialFill ∨ e.status = .sim) ∨
    (s'.positions = st.positions ∧ s'.avgCost = st.avgCost ∧ s'.cashFlow = st.cashFlow)) ∧
  ((e.status = .skipped ∨ e.status = .noFill ∨ e.status = .error) → e.size = 0) ∧
  ((e.status = .filled ∨ e.status = .partialFill ∨ e.status = .sim) → 0 < e.size) ∧
  e.reason.note ≠ some Note.priceOutOfTradableRange ∧
  (∀ tid, tokenIdFor env a.outcome = some tid →
    (e.status = .noFill →
      s'.priceNudge = setD st.priceNudge (tid, a.side)
        (clampQ (lookupD st.priceNudge (tid, a.side) 0 + 1 / 100) 0 (5 / 100)) ∧
      s'.noMatchRetry = setD st.noMatchRetry (tid, a.side)
        (max (lookupD st.noMatchRetry (tid, a.side) 0)
          (env.nowMs + LIVE_RETRY_BACKOFF_FAK_NO_MATCH_MS))) ∧
    ((e.status = .filled ∨ e.status = .partialFill) →
      lookupD s'.priceNudge (tid, a.side) 0
        = (if 0 < lookupD st.priceNudge (tid, a.side) 0 then 0
           else lookupD st.priceNudge (tid, a.side) 0)) ∧
    (∀ b2 b3 b4 at2 oid2,
      st.apiOracle.head? = some (ApiOutcome.httpError true b2 b3 b4 at2 oid2) →
      e.status = .error →
      s'.priceNudge = setD st.priceNudge (tid, a.side)
        (clampQ (lookupD st.priceNudge (tid, a.side) 0 + 1 / 100) 0 (5 / 100)) ∧
      env.nowMs + LIVE_RETRY_BACKOFF_FAK_NO_MATCH_MS
        ≤ lookupD s'.noMatchRetry (tid, a.side) 0))

theorem computeSubmitPrice_range (sd : Side) (bp n : ℚ) :
    MIN_BUY_PRICE ≤ computeSubmitPrice sd bp n ∧ computeSubmitPrice sd bp n ≤ MAX_BUY_PRICE := by
  unfold computeSubmitPrice clampQ
  dsimp only
  refine ⟨le_min ?_ (le_max_left _ _), min_le_left _ _⟩
  unfold MIN_BUY_PRICE MAX_BUY_PRICE
  norm_num

theorem computeSubmitPrice_inRange (sd : Side) (bp n : ℚ) :
    isPriceOutOfTradableRange (computeSubmitPrice sd bp n) = false := by
  obtain ⟨h1, h2⟩ := computeSubmitPrice_range sd bp n
  unfold isPriceOutOfTradableRange isBelowMin
  have he : (0:ℚ) < EPS9 := by unfold EPS9; norm_num
  simp only [Bool.or_eq_false_iff, decide_eq_false_iff_not, not_lt]
  exact ⟨by linarith, by linarith⟩

/-- Packaging lemma: `EtSome` for a result produced by `recordTrade`,
from facts about the record arguments and the pre-record state. -/
theorem etSome_ofRecord (a : CallArgs) (env : Env) (st : TState)
    (ra : RecordArgs) (now : ℚ) (stX : TState)
    (hte : stX.tickEntries = st.tickEntries)
    (htr : stX.trades = st.trades)
    (hled : (ra.status = .filled ∨ ra.status = .partialFill ∨ ra.status = .sim) ∨
      (stX.positions = st.positions ∧ stX.avgCost = st.avgCost ∧ stX.cashFlow = st.cashFlow))
    (hfa : ra.isHedge = a.isHedge ∧ ra.hedgeOf = a.hedgeOf ∧ ra.side = a.side ∧
      ra.outcome = a.outcome)
    (hzero : (ra.status = .skipped ∨ ra.status = .noFill ∨ ra.status = .error) →
      (match ra.filledSize with | some f => f | none => ra.requestedSize) ≤ 0)
    (hpos : (ra.status = .filled ∨ ra.status = .partialFill ∨ ra.status = .sim) →
      0 < (match ra.filledSize with | some f => f | none => ra.requestedSize))
    (hnote : ra.reason.note ≠ some Note.priceOutOfTradableRange)
    (htid : ∀ tid, tokenIdFor env a.outcome = some tid →
      (ra.status = .noFill →
        stX.priceNudge = setD st.priceNudge (tid, a.side)
          (clampQ (lookupD st.priceNudge (tid, a.side) 0 + 1 / 100) 0 (5 / 100)) ∧
        stX.noMatchRetry = setD st.noMatchRetry (tid, a.side)
          (max (lookupD st.noMatchRetry (tid, a.side) 0)
            (env.nowMs + LIVE_RETRY_BACKOFF_FAK_NO_MATCH_MS))) ∧
      ((ra.status = .filled ∨ ra.status = .partialFill) →
        lookupD stX.priceNudge (tid, a.side) 0
          = (if 0 < lookupD st.priceNudge (tid, a.side) 0 then 0
             else lookupD st.priceNudge (tid, a.side) 0)) ∧
      (∀ b2 b3 b4 at2 oid2,
        st.apiOracle.head? = some (ApiOutcome.httpError true b2 b3 b4 at2 oid2) →
        ra.status = .error →
        stX.priceNudge = setD st.priceNudge (tid, a.side)
          (clampQ (lookupD st.priceNudge (tid, a.side) 0 + 1 / 100) 0 (5 / 100)) ∧
        env.nowMs + LIVE_RETRY_BACKOFF_FAK_NO_MATCH_MS
          ≤ lookupD stX.noMatchRetry (tid, a.side) 0)) :
    EtSome a env st (recordTrade ra now stX).1 (recordTrade ra now stX).2 := by
  obtain ⟨hstat, hhedge, hhof, hside, hout, hreas, hid, htr2, hte2, hcalls, hsub, hpn, hnmr,
    hora, hlast, hbusy, hretry, hcond, hnid⟩ := recordTrade_spec ra now stX
  obtain ⟨f1, f2, f3, f4⟩ := hfa
  refine ⟨hte2.trans (by rw [hte]), htr2.trans (by rw [htr]),
    hhedge.trans f1, hhof.trans f2, hside.trans f3, hout.trans f4, ?_, ?_, ?_, ?_, ?_⟩
  · rcases hled with h | ⟨p1, p2, p3⟩
    · exact Or.inl (by rw [hstat]; exact h)
    · have hZ : (ra.status = .skipped ∨ ra.status = .noFill ∨ ra.status = .error) →
          ((recordTrade ra now stX).2.positions = st.positions ∧
           (recordTrade ra now stX).2.avgCost = st.avgCost ∧
           (recordTrade ra now stX).2.cashFlow = st.cashFlow) := by
        intro hmem
        obtain ⟨q1, q2, q3, _⟩ := recordTrade_zero_fill ra now stX (hzero hmem)
        exact ⟨q1.trans p1, q2.trans p2, q3.trans p3⟩
      rcases h0 : ra.status with _ | _ | _ | _ | _ | _
      · exact Or.inl (by rw [hstat, h0]; exact Or.inl rfl)
      · exact Or.inl (by rw [hstat, h0]; exact Or.inr (Or.inl rfl))
      · exact Or.inr (hZ (Or.inr (Or.inl h0)))
      · exact Or.inr (hZ (Or.inl h0))
      · exact Or.inr (hZ (Or.inr (Or.inr h0)))
      · exact Or.inl (by rw [hstat, h0]; exact Or.inr (Or.inr rfl))
  · intro h
    rw [hstat] at h
    exact (recordTrade_zero_fill ra now stX (hzero h)).2.2.2
  · intro h
    rw [hstat] at h
    have hp := hpos h
    rw [recordTrade_pos_fill ra now stX hp]
    exact hp
  · rw [hreas]
    exact hnote
  · intro tid htok
    obtain ⟨c1, c2, c3⟩ := htid tid htok
    refine ⟨?_, ?_, ?_⟩
    · intro h
      rw [hstat] at h
      obtain ⟨d1, d2⟩ := c1 h
      exact ⟨hpn.trans d1, hnmr.trans d2⟩
    · intro h
      rw [hstat] at h
      rw [hpn]
      exact c2 h
    · intro b2 b3 b4 at2 oid2 hhead herr
      rw [hstat] at herr
      obtain ⟨d1, d2⟩ := c3 b2 b3 b4 at2 oid2 hhead herr
      exact ⟨hpn.trans d1, by rw [hnmr]; exact d2⟩

/-- The post-condition of `executeTrade` as a predicate on its result. -/
def EtPost (a : CallArgs) (env : Env) (st : TState) : Option Entry × TState → Prop
  | (none, s') => EtNone st s'
  | (some e, s') => EtSome a env st e s'

/-- The branch contract of `executeTrade`: a `none` result changes
nothing observable, a `some` result satisfies `EtSome`. -/
theorem executeTrade_spec (a : CallArgs) (env : Env) (cfg : Config) (st : TState) :
    EtPost a env st (executeTrade a env cfg st) := by
  unfold executeTrade
  rcases hTok : tokenIdFor env a.outcome with _ | tid
  case none =>
    obtain ⟨c, hc⟩ := maybeRefreshForSell_frame env a.side none {st with calls := a :: st.calls}
    dsimp only
    rw [hc]
    split
    · exact ⟨rfl, rfl, rfl, rfl, rfl, rfl, rfl⟩
    · rename_i hds
      split
      · refine etSome_ofRecord a env st _ _ _ rfl rfl
          (Or.inl (Or.inr (Or.inr rfl))) ⟨rfl, rfl, rfl, rfl⟩ ?_ ?_ ?_ ?_
        · rintro (h | h | h) <;> exact Status.noConfusion h
        · intro _
          exact lt_of_not_le hds
        · intro hcon
          exact Option.noConfusion hcon
        · intro tid2 htid2
          rw [hTok] at htid2
          exact Option.noConfusion htid2
      · split
        · exact ⟨rfl, rfl, rfl, rfl, rfl, rfl, rfl⟩
        · refine etSome_ofRecord a env st _ _ _ rfl rfl
            (Or.inr ⟨rfl, rfl, rfl⟩) ⟨rfl, rfl, rfl, rfl⟩ (fun _ => le_refl 0) ?_ ?_ ?_
          · rintro (h | h | h) <;> exact Status.noConfusion h
          · intro hcon
            exact Note.noConfusion (Option.some.inj hcon)
          · intro tid2 htid2
            rw [hTok] at htid2
            exact Option.noConfusion htid2
  case some =>
    obtain ⟨c, hc⟩ := maybeRefreshForSell_frame env a.side (some tid)
      {st with calls := a :: st.calls}
    dsimp only
    have hS : maybeRefreshForSell env a.side (some tid) {st with calls := a :: st.calls}
        = {st with calls := a :: st.calls, condAvail := c} := by rw [hc]
    rw [hS]
    generalize hG : ({st with calls := a :: st.calls, condAvail := c} : TState) = S
    have hTe : S.tickEntries = st.tickEntries := by rw [← hG]
    have hTr : S.trades = st.trades := by rw [← hG]
    have hPo : S.positions = st.positions := by rw [← hG]
    have hAv : S.avgCost = st.avgCost := by rw [← hG]
    have hCf : S.cashFlow = st.cashFlow := by rw [← hG]
    have hSu : S.submissions = st.submissions := by rw [← hG]
    have hPn : S.priceNudge = st.priceNudge := by rw [← hG]
    have hNm : S.noMatchRetry = st.noMatchRetry := by rw [← hG]
    have hAo : S.apiOracle = st.apiOracle := by rw [← hG]
    generalize hSP : computeSubmitPrice a.side (basisPriceOf a env)
      (lookupD st.priceNudge (tid, a.side) 0) = SP
    generalize hD : desiredSizeOf a env cfg (some tid) SP S = D
    by_cases hds0 : D ≤ 0
    · rw [if_pos hds0]
      exact ⟨hTe, hTr, hPo, hAv, hCf, hSu, hPn⟩
    · rw [if_neg hds0]
      by_cases hlive : env.liveAllowed = true
      · rw [if_neg (not_not_intro hlive), if_pos hlive]
        by_cases hbusy : S.busy = true
        · rw [if_pos hbusy]
          exact ⟨hTe, hTr, hPo, hAv, hCf, hSu, hPn⟩
        · rw [if_neg hbusy]
          by_cases hr1 : env.nowMs < S.retryAfter
          · rw [if_pos hr1]
            exact ⟨hTe, hTr, hPo, hAv, hCf, hSu, hPn⟩
          · rw [if_neg hr1]
            by_cases hr2 : env.nowMs < lookupD S.noMatchRetry (tid, a.side) 0
            · rw [if_pos hr2]
              exact ⟨hTe, hTr, hPo, hAv, hCf, hSu, hPn⟩
            · rw [if_neg hr2]
              have hoorp : ¬(isPriceOutOfTradableRange SP = true) := by
                rw [← hSP, computeSubmitPrice_inRange]
                exact Bool.false_ne_true
              rw [if_neg hoorp]
              by_cases hamt : SP ≤ 0 ∨ submitAmountOf a.side D SP ≤ 0
              · rw [if_pos hamt]
                refine etSome_ofRecord a env st _ _ _ hTe hTr
                  (Or.inr ⟨hPo, hAv, hCf⟩) ⟨rfl, rfl, rfl, rfl⟩ (fun _ => le_refl 0) ?_ ?_ ?_
                · rintro (h | h | h) <;> exact Status.noConfusion h
                · intro hcon
                  exact Note.noConfusion (Option.some.inj hcon)
                · intro tid2 htid2
                  exact ⟨fun h => Status.noConfusion h,
                    fun h => h.elim (fun h1 => Status.noConfusion h1)
                      (fun h1 => Status.noConfusion h1),
                    fun _ _ _ _ _ _ herr => Status.noConfusion herr⟩
              · rw [if_neg hamt]
                by_cases hbm : a.side = Side.buy ∧
                    isBelowMin (submitAmountOf a.side D SP) LIVE_MIN_NOTIONAL_USD = true
                · rw [if_pos hbm]
                  refine etSome_ofRecord a env st _ _ _ hTe hTr
                    (Or.inr ⟨hPo, hAv, hCf⟩) ⟨rfl, rfl, rfl, rfl⟩ (fun _ => le_refl 0) ?_ ?_ ?_
                  · rintro (h | h | h) <;> exact Status.noConfusion h
                  · intro hcon
                    exact Note.noConfusion (Option.some.inj hcon)
                  · intro tid2 htid2
                    exact ⟨fun h => Status.noConfusion h,
                      fun h => h.elim (fun h1 => Status.noConfusion h1)
                        (fun h1 => Status.noConfusion h1),
                      fun _ _ _ _ _ _ herr => Status.noConfusion herr⟩
                · rw [if_neg hbm]
                  by_cases hsm : a.side = Side.sell ∧
                      isBelowMin (submitAmountOf a.side D SP * SP) LIVE_MIN_NOTIONAL_USD = true
                  · rw [if_pos hsm]
                    refine etSome_ofRecord a env st _ _ _ hTe hTr
                      (Or.inr ⟨hPo, hAv, hCf⟩) ⟨rfl, rfl, rfl, rfl⟩ (fun _ => le_refl 0)
                      ?_ ?_ ?_
                    · rintro (h | h | h) <;> exact Status.noConfusion h
                    · intro hcon
                      exact Note.noConfusion (Option.some.inj hcon)
                    · intro tid2 htid2
                      exact ⟨fun h => Status.noConfusion h,
                        fun h => h.elim (fun h1 => Status.noConfusion h1)
                          (fun h1 => Status.noConfusion h1),
                        fun _ _ _ _ _ _ herr => Status.noConfusion herr⟩
                  · rw [if_neg hsm, hAo]
                    rcases hOr : st.apiOracle with _ | ⟨r0, rest⟩
                    · dsimp only [oracleHead]
                      refine etSome_ofRecord a env st _ _ _ hTe hTr
                        (Or.inr ⟨hPo, hAv, hCf⟩) ⟨rfl, rfl, rfl, rfl⟩ (fun _ => le_refl 0)
                        ?_ ?_ ?_
                      · rintro (h | h | h) <;> exact Status.noConfusion h
                      · intro hcon
                        exact Note.noConfusion (Option.some.inj hcon)
                      · intro tid2 htid2
                        refine ⟨fun h => Status.noConfusion h,
                          fun h => h.elim (fun h1 => Status.noConfusion h1)
                            (fun h1 => Status.noConfusion h1), ?_⟩
                        intro b2 b3 b4 at2 oid2 hhead herr
                        rw [hOr] at hhead
                        exact Option.noConfusion hhead
                    · rcases r0 with ⟨b1, b2, b3, b4, at2, oid⟩ | ⟨oid, fs, ap⟩ | _
                      · dsimp only [oracleHead]
                        refine etSome_ofRecord a env st _ _ _ ?_ ?_ ?_
                          ⟨rfl, rfl, rfl, rfl⟩ (fun _ => le_refl 0) ?_ ?_ ?_
                        · exact ((applyHttpErrorBackoff_frame _ _ _ _ _ _ _ _ _).1).trans hTe
                        · exact ((applyHttpErrorBackoff_frame _ _ _ _ _ _ _ _ _).2.1).trans hTr
                        · exact Or.inr
                            ⟨((applyHttpErrorBackoff_frame _ _ _ _ _ _ _ _ _).2.2.1).trans hPo,
                             ((applyHttpErrorBackoff_frame _ _ _ _ _ _ _ _ _).2.2.2.1).trans hAv,
                             ((applyHttpErrorBackoff_frame _ _ _ _ _ _ _ _ _).2.2.2.2.1).trans hCf⟩
                        · rintro (h | h | h) <;> exact Status.noConfusion h
                        · intro hcon
                          exact Note.noConfusion (Option.some.inj hcon)
                        · intro tid2 htid2
                          rw [hTok] at htid2
                          injection htid2 with e
                          subst e
                          refine ⟨fun h => Status.noConfusion h,
                            fun h => h.elim (fun h1 => Status.noConfusion h1)
                              (fun h1 => Status.noConfusion h1), ?_⟩
                          intro b2x b3x b4x at2x oid2x hhead herr
                          rw [hOr] at hhead
                          have hinj := Option.some.inj hhead
                          injection hinj with e1 e2 e3 e4 e5 e6
                          subst e1
                          refine ⟨?_, ?_⟩
                          · rw [← hPn]
                            exact (applyHttpErrorBackoff_noMatch _ _ _ _ _ _ _ _).1
                          · exact (applyHttpErrorBackoff_noMatch _ _ _ _ _ _ _ _).2
                      · dsimp only [oracleHead]
                        by_cases hf : (0:ℚ) < max 0 (fs.getD 0)
                        · rw [if_pos hf]
                          split_ifs with hp h2 h3
                          · exact absurd h2 (by decide)
                          · refine etSome_ofRecord a env st _ _ _ ?_ ?_
                              (Or.inl (Or.inr (Or.inl rfl))) ⟨rfl, rfl, rfl, rfl⟩ ?_
                              (fun _ => hf) (fun hcon => Option.noConfusion hcon) ?_
                            · exact ((applyFillNudgeReset_frame _ _ _).1.1).trans hTe
                            · exact ((applyFillNudgeReset_frame _ _ _).1.2.1).trans hTr
                            · rintro (h | h | h) <;> exact Status.noConfusion h
                            · intro tid2 htid2
                              rw [hTok] at htid2
                              injection htid2 with e
                              subst e
                              refine ⟨fun h => Status.noConfusion h, fun _ => ?_,
                                fun _ _ _ _ _ _ herr => Status.noConfusion herr⟩
                              rw [← hPn]
                              exact applyFillNudgeReset_lookup _ _ _
                          · exact absurd h3 (by decide)
                          · refine etSome_ofRecord a env st _ _ _ ?_ ?_
                              (Or.inl (Or.inl rfl)) ⟨rfl, rfl, rfl, rfl⟩ ?_
                              (fun _ => hf) (fun hcon => Option.noConfusion hcon) ?_
                            · exact ((applyFillNudgeReset_frame _ _ _).1.1).trans hTe
                            · exact ((applyFillNudgeReset_frame _ _ _).1.2.1).trans hTr
                            · rintro (h | h | h) <;> exact Status.noConfusion h
                            · intro tid2 htid2
                              rw [hTok] at htid2
                              injection htid2 with e
                              subst e
                              refine ⟨fun h => Status.noConfusion h, fun _ => ?_,
                                fun _ _ _ _ _ _ herr => Status.noConfusion herr⟩
                              rw [← hPn]
                              exact applyFillNudgeReset_lookup _ _ _
                        · rw [if_neg hf]
                          split_ifs with h2
                          · refine etSome_ofRecord a env st _ _ _ hTe hTr
                              (Or.inr ⟨hPo, hAv, hCf⟩) ⟨rfl, rfl, rfl, rfl⟩
                              (fun _ => le_of_not_lt hf) ?_
                              (fun hcon => Option.noConfusion hcon) ?_
                            · rintro (h | h | h) <;> exact Status.noConfusion h
                            · intro tid2 htid2
                              rw [hTok] at htid2
                              injection htid2 with e
                              subst e
                              refine ⟨fun _ => ?_,
                                fun h => h.elim (fun h1 => Status.noConfusion h1)
                                  (fun h1 => Status.noConfusion h1),
                                fun _ _ _ _ _ _ herr => Status.noConfusion herr⟩
                              rw [← hPn, ← hNm]
                              exact ⟨rfl, rfl⟩
                          · exact absurd rfl h2
                      · dsimp only [oracleHead]
                        refine etSome_ofRecord a env st _ _ _ hTe hTr
                          (Or.inr ⟨hPo, hAv, hCf⟩) ⟨rfl, rfl, rfl, rfl⟩ (fun _ => le_refl 0)
                          ?_ ?_ ?_
                        · rintro (h | h | h) <;> exact Status.noConfusion h
                        · intro hcon
                          exact Note.noConfusion (Option.some.inj hcon)
                        · intro tid2 htid2
                          refine ⟨fun h => Status.noConfusion h,
                            fun h => h.elim (fun h1 => Status.noConfusion h1)
                              (fun h1 => Status.noConfusion h1), ?_⟩
                          intro b2 b3 b4 at2 oid2 hhead herr
                          rw [hOr] at hhead
                          exact ApiOutcome.noConfusion (Option.some.inj hhead)
      · rw [if_pos hlive]
        refine etSome_ofRecord a env st _ _ _ hTe hTr
          (Or.inl (Or.inr (Or.inr rfl))) ⟨rfl, rfl, rfl, rfl⟩ ?_ ?_ ?_ ?_
        · rintro (h | h | h) <;> exact Status.noConfusion h
        · intro _
          exact lt_of_not_le hds0
        · intro hcon
          exact Option.noConfusion hcon
        · intro tid2 htid2
          exact ⟨fun h => Status.noConfusion h,
            fun h => h.elim (fun h1 => Status.noConfusion h1) (fun h1 => Status.noConfusion h1),
            fun _ _ _ _ _ _ herr => Status.noConfusion herr⟩

/-! ### Claim C9: ratio formula and the boundary pass -/

/-- C9: `buyPayoutRatio` computes `(1 - ask) / ask` for every ask in
`(0, 1)` (so in exact arithmetic `buyPayoutRatio 0.40 = 1.5`), and a
signal whose ratio exactly equals its threshold passes the ratio gate
(the comparison is `>=`). -/
theorem c9_ratio_boundary :
    (∀ p : ℚ, 0 < p → p < 1 → buyPayoutRatio (some p) = some ((1 - p) / p)) ∧
    buyPayoutRatio (some (2 / 5)) = some (3 / 2) ∧
    (∀ t : ℚ, passesRatioGate t t = true) := by
  refine ⟨?_, ?_, ?_⟩
  · intro p hp _
    unfold buyPayoutRatio
    dsimp only
    rw [if_neg (not_le.mpr hp)]
  · unfold buyPayoutRatio
    dsimp only
    rw [if_neg (by norm_num)]
    norm_num
  · intro t
    unfold passesRatioGate
    exact decide_eq_true (le_refl t)

theorem c9_ratio_boundary_witness :
    buyPayoutRatio (some (2 / 5)) = some ((1 - 2 / 5) / (2 / 5)) ∧
    passesRatioGate (3 / 2) (3 / 2) = true :=
  ⟨c9_ratio_boundary.1 (2 / 5) (by norm_num) (by norm_num),
   c9_ratio_boundary.2.2 (3 / 2)⟩

/-! ### Claim C10: the submission price is always tradable -/

/-- C10: the submission price (directional 2-decimal rounding, nudge,
rounding, clamp) always lies in `[0.01, 0.99]`, so the pre-submission
price-out-of-tradable-range check never fires: no returned entry carries
that skip note. -/
theorem c10_submit_price_range :
    (∀ sd bp n, MIN_BUY_PRICE ≤ computeSubmitPrice sd bp n ∧
      computeSubmitPrice sd bp n ≤ MAX_BUY_PRICE ∧
      isPriceOutOfTradableRange (computeSubmitPrice sd bp n) = false) ∧
    (∀ a env cfg st e s', executeTrade a env cfg st = (some e, s') →
      e.reason.note ≠ some Note.priceOutOfTradableRange) := by
  constructor
  · intro sd bp n
    obtain ⟨h1, h2⟩ := computeSubmitPrice_range sd bp n
    exact ⟨h1, h2, computeSubmitPrice_inRange sd bp n⟩
  · intro a env cfg st e s' h
    have H := executeTrade_spec a env cfg st
    rw [h] at H
    exact H.2.2.2.2.2.2.2.2.2.1

/-! ### Concrete sim-mode scenario used by the executor witnesses -/

def envSim : Env := {
  upBid := some (45 / 100), upAsk := some (1 / 2),
  downBid := some (45 / 100), downAsk := some (1 / 2),
  upTokenId := some 1, downTokenId := some 2,
  endMs := some 900000, nowMs := 100000, timeLeftAtRender := some 800,
  liveAllowed := false, tradeActive := true,
  buyRatioMinAdj := 1, sellRatioMinAdj := 1, minMomentumAdj := 0,
  sizeAdjust := 1, upSpreadLimit := 1, downSpreadLimit := 1,
  effectiveSettlementBuffer := 0, effectiveCapMult := 2,
  balancePollMs := 5000, balanceStaleMs := 10000,
  balanceOracle := fun _ => none }

def cfg0 : Config := {
  momentumWindowSec := 60, baseSize := 10, maxSize := 100, cooldownSec := 10,
  sizeScale := 0, hedgeEnabled := true, hedgeRatioMin := 0, hedgeRatioMax := 10,
  hedgeSizeMult := 1, winnerBuyMinPrice := 1, winnerBuyRequireFavored := true,
  endClampLoserBuySec := 60, endClampWinnerSellSec := 30,
  rebalanceMode := RebMode.sellFirst, maxRebalanceSizeMult := 2,
  flipRebalanceEnabled := true, rebalanceIgnoreCooldown := false,
  lateRebalanceOverride := false, dojiThreshold := 1 / 100, dojiSizeMult := 1,
  dojiAllowBuys := false, lateDojiUnwind := true, lateWindowSec := 120 }

def st0W : TState := {
  positions := ⟨0, 0⟩, avgCost := ⟨0, 0⟩, cashFlow := ⟨0, 0⟩,
  trades := [], lastTrade := [], busy := false, retryAfter := 0,
  noMatchRetry := [], priceNudge := [], lastWinnerSide := none, condAvail := [],
  series := ⟨[], [], [], []⟩, timeLeftRef := none, nextId := 0,
  apiOracle := [], calls := [], submissions := [], tickEntries := [] }

def aSim : CallArgs := {
  outcome := Outcome.up, side := Side.buy, price := 1 / 2, ratio := some 1,
  momentum := some 0, threshold := Thresh.num 1, reason := BaseReason.signal true false,
  sizeOverride := some 10 }

def entry0 : Entry := {
  id := 0, time := 0, outcome := Outcome.up, side := Side.buy, price := 0,
  ratio := none, momentum := none, size := 0, requestedSize := 0, notional := 0,
  threshold := Thresh.doji, reason := { base := BaseReason.dojiUnwind },
  positionAfter := 0, isHedge := false, hedgeOf := none, status := Status.sim,
  mode := Mode.sim, orderId := none, apiAttempted := false }

def c10entry : Entry := ((executeTrade aSim envSim cfg0 st0W).1).getD entry0

def c10state : TState := (executeTrade aSim envSim cfg0 st0W).2

theorem c10_submit_price_range_witness :
    executeTrade aSim envSim cfg0 st0W = (some c10entry, c10state) ∧
    MIN_BUY_PRICE ≤ computeSubmitPrice Side.buy (1 / 2) 0 ∧
    c10entry.reason.note ≠ some Note.priceOutOfTradableRange := by
  have h : executeTrade aSim envSim cfg0 st0W = (some c10entry, c10state) := by
    with_unfolding_all rfl
  exact ⟨h, (c10_submit_price_range.1 Side.buy (1 / 2) 0).1,
    c10_submit_price_range.2 aSim envSim cfg0 st0W c10entry c10state h⟩

/-! ### Claim C3: every attempt is logged; only fills touch the ledger -/

/-- C3: a returned attempt (any status, including skipped, error and
no-fill) is pushed onto the trade log and the tick entries; a status
other than filled/partial/sim leaves positions, average cost and cash
flow exactly unchanged; a silently dropped attempt (`none`) appends
nothing and changes neither log nor ledger. -/
theorem c3_log_ledger :
    (∀ a env cfg st e s', executeTrade a env cfg st = (some e, s') →
      s'.tickEntries = e :: st.tickEntries ∧
      s'.trades = (e :: st.trades).take 2000 ∧
      (e.status ≠ Status.filled → e.status ≠ Status.partialFill → e.status ≠ Status.sim →
        s'.positions = st.positions ∧ s'.avgCost = st.avgCost ∧ s'.cashFlow = st.cashFlow)) ∧
    (∀ a env cfg st s', executeTrade a env cfg st = (none, s') →
      s'.tickEntries = st.tickEntries ∧ s'.trades = st.trades ∧
      s'.positions = st.positions ∧ s'.avgCost = st.avgCost ∧ s'.cashFlow = st.cashFlow) := by
  constructor
  · intro a env cfg st e s' h
    have H := executeTrade_spec a env cfg st
    rw [h] at H
    refine ⟨H.1, H.2.1, ?_⟩
    intro h1 h2 h3
    rcases H.2.2.2.2.2.2.1 with (hh | hh | hh) | hunch
    · exact absurd hh h1
    · exact absurd hh h2
    · exact absurd hh h3
    · exact hunch
  · intro a env cfg st s' h
    have H := executeTrade_spec a env cfg st
    rw [h] at H
    exact ⟨H.1, H.2.1, H.2.2.1, H.2.2.2.1, H.2.2.2.2.1⟩

def c3entry : Entry := ((executeTrade aSim envSim cfg0 st0W).1).getD entry0

def c3state : TState := (executeTrade aSim envSim cfg0 st0W).2

theorem c3_log_ledger_witness :
    executeTrade aSim envSim cfg0 st0W = (some c3entry, c3state) ∧
    c3state.tickEntries = c3entry :: st0W.tickEntries := by
  have h : executeTrade aSim envSim cfg0 st0W = (some c3entry, c3state) := by
    with_unfolding_all rfl
  exact ⟨h, (c3_log_ledger.1 aSim envSim cfg0 st0W c3entry c3state h).1⟩

/-- While the per-key no-match retry timestamp has not elapsed (live
mode), `executeTrade` returns no entry and makes no submission. -/
theorem executeTrade_retryGate (a : CallArgs) (env : Env) (cfg : Config) (st : TState)
    (tid : ℕ) (htok : tokenIdFor env a.outcome = some tid)
    (hlive : env.liveAllowed = true)
    (hgate : env.nowMs < lookupD st.noMatchRetry (tid, a.side) 0) :
    (executeTrade a env cfg st).1 = none ∧
    (executeTrade a env cfg st).2.submissions = st.submissions := by
  obtain ⟨c, hc⟩ := maybeRefreshForSell_frame env a.side (some tid)
    {st with calls := a :: st.calls}
  have hE : executeTrade a env cfg st
      = (none, {st with calls := a :: st.calls, condAvail := c}) := by
    unfold executeTrade
    rw [htok]
    dsimp only
    have hS : maybeRefreshForSell env a.side (some tid) {st with calls := a :: st.calls}
        = {st with calls := a :: st.calls, condAvail := c} := by rw [hc]
    rw [hS]
    generalize hSP : computeSubmitPrice a.side (basisPriceOf a env)
      (lookupD st.priceNudge (tid, a.side) 0) = SP
    generalize hG : ({st with calls := a :: st.calls, condAvail := c} : TState) = S
    have hNm : S.noMatchRetry = st.noMatchRetry := by rw [← hG]
    by_cases hds0 : desiredSizeOf a env cfg (some tid) SP S ≤ 0
    · rw [if_pos hds0]
    · rw [if_neg hds0, if_neg (not_not_intro hlive)]
      by_cases hb : S.busy = true
      · rw [if_pos hb]
      · rw [if_neg hb]
        by_cases hr1 : env.nowMs < S.retryAfter
        · rw [if_pos hr1]
        · rw [if_neg hr1, if_pos (show env.nowMs < lookupD S.noMatchRetry (tid, a.side) 0 by
            rw [hNm]; exact hgate)]
  exact ⟨by rw [hE], by rw [hE]⟩

/-! ### Claim C5: the FAK no-match backoff and nudge -/

/-- C5: a no-fill outcome bumps the per-(token, side) price nudge to
`clamp(old + 0.01, 0, 0.05)` (which is `min (old + 0.01) 0.05` for a
non-negative old value) and pushes the no-match retry timestamp to at
least `now + 4000`; an API no-match error does the same; while the
timestamp has not elapsed no submission is made for the key; a fill
resets the key's nudge to 0. -/
theorem c5_fak_no_match :
    (∀ a env cfg st tid e s', tokenIdFor env a.outcome = some tid →
      executeTrade a env cfg st = (some e, s') → e.status = Status.noFill →
      s'.priceNudge = setD st.priceNudge (tid, a.side)
        (clampQ (lookupD st.priceNudge (tid, a.side) 0 + 1 / 100) 0 (5 / 100)) ∧
      s'.noMatchRetry = setD st.noMatchRetry (tid, a.side)
        (max (lookupD st.noMatchRetry (tid, a.side) 0)
          (env.nowMs + LIVE_RETRY_BACKOFF_FAK_NO_MATCH_MS))) ∧
    (∀ a env cfg st tid b2 b3 b4 at2 oid e s', tokenIdFor env a.outcome = some tid →
      st.apiOracle.head? = some (ApiOutcome.httpError true b2 b3 b4 at2 oid) →
      executeTrade a env cfg st = (some e, s') → e.status = Status.error →
      s'.priceNudge = setD st.priceNudge (tid, a.side)
        (clampQ (lookupD st.priceNudge (tid, a.side) 0 + 1 / 100) 0 (5 / 100)) ∧
      env.nowMs + LIVE_RETRY_BACKOFF_FAK_NO_MATCH_MS
        ≤ lookupD s'.noMatchRetry (tid, a.side) 0) ∧
    (∀ q : ℚ, 0 ≤ q →
      clampQ (q + 1 / 100) 0 (5 / 100) = min (q + 1 / 100) (5 / 100)) ∧
    (∀ a env cfg st tid, tokenIdFor env a.outcome = some tid →
      env.liveAllowed = true →
      env.nowMs < lookupD st.noMatchRetry (tid, a.side) 0 →
      (executeTrade a env cfg st).1 = none ∧
      (executeTrade a env cfg st).2.submissions = st.submissions) ∧
    (∀ a env cfg st tid e s', tokenIdFor env a.outcome = some tid →
      executeTrade a env cfg st = (some e, s') →
      (e.status = Status.filled ∨ e.status = Status.partialFill) →
      0 ≤ lookupD st.priceNudge (tid, a.side) 0 →
      lookupD s'.priceNudge (tid, a.side) 0 = 0) := by
  refine ⟨?_, ?_, ?_, ?_, ?_⟩
  · intro a env cfg st tid e s' htok h hst
    have H := executeTrade_spec a env cfg st
    rw [h] at H
    exact (H.2.2.2.2.2.2.2.2.2.2 tid htok).1 hst
  · intro a env cfg st tid b2 b3 b4 at2 oid e s' htok hhead h herr
    have H := executeTrade_spec a env cfg st
    rw [h] at H
    exact (H.2.2.2.2.2.2.2.2.2.2 tid htok).2.2 b2 b3 b4 at2 oid hhead herr
  · intro q hq
    unfold clampQ
    rw [max_eq_right (by linarith), min_comm]
  · intro a env cfg st tid htok hlive hgate
    exact executeTrade_retryGate a env cfg st tid htok hlive hgate
  · intro a env cfg st tid e s' htok h hfill hold
    have H := executeTrade_spec a env cfg st
    rw [h] at H
    have h2 := (H.2.2.2.2.2.2.2.2.2.2 tid htok).2.1 hfill
    rw [h2]
    rcases eq_or_lt_of_le hold with heq | hlt
    · rw [if_neg (by rw [← heq]; exact lt_irrefl 0), ← heq]
    · rw [if_pos hlt]

def envLive : Env := {envSim with liveAllowed := true}

def stNF : TState := {st0W with apiOracle := [ApiOutcome.success none (some 0) none]}

def stGate : TState := {st0W with noMatchRetry := [((1, Side.buy), 200000)]}

def c5entry : Entry := ((executeTrade aSim envLive cfg0 stNF).1).getD entry0

def c5state : TState := (executeTrade aSim envLive cfg0 stNF).2

theorem c5_fak_no_match_witness :
    executeTrade aSim envLive cfg0 stNF = (some c5entry, c5state) ∧
    tokenIdFor envLive aSim.outcome = some 1 ∧
    c5entry.status = Status.noFill ∧
    c5state.priceNudge = setD stNF.priceNudge (1, aSim.side)
      (clampQ (lookupD stNF.priceNudge (1, aSim.side) 0 + 1 / 100) 0 (5 / 100)) ∧
    (0:ℚ) ≤ 0 ∧
    clampQ ((0:ℚ) + 1 / 100) 0 (5 / 100) = min ((0:ℚ) + 1 / 100) (5 / 100) ∧
    envLive.nowMs < lookupD stGate.noMatchRetry (1, aSim.side) 0 ∧
    (executeTrade aSim envLive cfg0 stGate).1 = none := by
  have h : executeTrade aSim envLive cfg0 stNF = (some c5entry, c5state) := by
    with_unfolding_all rfl
  have htok : tokenIdFor envLive aSim.outcome = some 1 := rfl
  have hst : c5entry.status = Status.noFill := by with_unfolding_all rfl
  have hgate : envLive.nowMs < lookupD stGate.noMatchRetry (1, aSim.side) 0 := by
    with_unfolding_all decide
  exact ⟨h, htok, hst,
    (c5_fak_no_match.1 aSim envLive cfg0 stNF 1 c5entry c5state htok h hst).1,
    le_refl 0, c5_fak_no_match.2.2.1 0 (le_refl 0), hgate,
    (c5_fak_no_match.2.2.2.1 aSim envLive cfg0 stGate 1 htok rfl hgate).1⟩

/-! ### Claim C6: doji unwind pre-empts rebalance and signals -/

/-- C6: `runTrading` evaluates the doji unwind first: when it executes a
trade the tick ends there (the rebalance and the signal loop never run),
and only when it does not fire is the solvency rebalance evaluated, with
the normal signals last. -/
theorem c6_doji_precedence :
    (∀ env cfg en ctx st, (dojiStep env cfg ctx st).1 = true →
      runTrading env cfg en ctx st = (dojiStep env cfg ctx st).2) ∧
    (∀ env cfg en ctx st, (dojiStep env cfg ctx st).1 = false →
      runTrading env cfg en ctx st =
        (if (rebalanceStep env cfg ctx (dojiStep env cfg ctx st).2).1 = true
         then (rebalanceStep env cfg ctx (dojiStep env cfg ctx st).2).2
         else signalLoop env cfg ctx (mkSignals env cfg en ctx) []
           (rebalanceStep env cfg ctx (dojiStep env cfg ctx st).2).2)) := by
  constructor
  · intro env cfg en ctx st h
    unfold runTrading
    dsimp only
    rw [h, if_pos rfl]
  · intro env cfg en ctx st h
    unfold runTrading
    dsimp only
    rw [h, if_neg Bool.false_ne_true]

def stDoji : TState := {st0W with
  positions := ⟨10, 0⟩, avgCost := ⟨1 / 2, 0⟩,
  condAvail := [(1, ⟨10, 10, 10, 100000⟩)]}

def ctxD : RunCtx := {
  nowSec := 100, next := ⟨[], [], [], []⟩, nextTimeLeft := some 60,
  favoredOutcome := some Outcome.up, inLoserBuyClamp := false, inWinnerHold := false,
  upSpreadOk := true, downSpreadOk := true, winnerSide := some Outcome.up,
  loserSide := some Outcome.down, winnerShares := 10, netSpentNow := 0,
  settlementNow := some 10, capNow := some 20, winnerFlip := false,
  rebalanceBypassSpread := false, dojiNeutralActive := true }

def enAll : Enabled := ⟨true, true, true, true⟩

theorem c6_doji_precedence_witness :
    (dojiStep envSim cfg0 ctxD stDoji).1 = true ∧
    runTrading envSim cfg0 enAll ctxD stDoji = (dojiStep envSim cfg0 ctxD stDoji).2 := by
  have h : (dojiStep envSim cfg0 ctxD stDoji).1 = true := by
    with_unfolding_all decide
  exact ⟨h, c6_doji_precedence.1 envSim cfg0 enAll ctxD stDoji h⟩

/-! ### Claim C7: a winner flip bypasses the rebalance cooldown -/

def ctxFlip : RunCtx := {
  nowSec := 5, next := ⟨[], [], [], []⟩, nextTimeLeft := some 60,
  favoredOutcome := some Outcome.up, inLoserBuyClamp := false, inWinnerHold := false,
  upSpreadOk := true, downSpreadOk := true, winnerSide := some Outcome.up,
  loserSide := some Outcome.down, winnerShares := 0, netSpentNow := 0,
  settlementNow := some (-5), capNow := some 20, winnerFlip := true,
  rebalanceBypassSpread := false, dojiNeutralActive := false }

def stReb : TState := {st0W with
  positions := ⟨0, 10⟩,
  condAvail := [(2, ⟨10, 10, 10, 100000⟩)]}

/-- C7: the rebalance cooldown guard passes whenever the winner-flip flag
is set (the disjunction the code tests is satisfied by the flip alone),
and on a concrete tick with the flip set and the per-key cooldown not yet
elapsed (`shouldTrade` is false) the rebalance still executes a trade. -/
theorem c7_flip_bypasses_cooldown :
    (∀ cfg ctx st k, ctx.winnerFlip = true →
      cfg.rebalanceIgnoreCooldown = true ∨ ctx.winnerFlip = true ∨
        shouldTrade cfg ctx st k = true) ∧
    shouldTrade cfg0 ctxFlip stReb (TradeKey.rebalanceAct RebAction.sell Outcome.up) = false ∧
    cfg0.rebalanceIgnoreCooldown = false ∧
    ctxFlip.winnerFlip = true ∧
    (rebalanceStep envSim cfg0 ctxFlip stReb).1 = true := by
  refine ⟨fun cfg ctx st k h => Or.inr (Or.inl h), ?_, rfl, rfl, ?_⟩
  · with_unfolding_all decide
  · with_unfolding_all decide

theorem c7_flip_bypasses_cooldown_witness :
    cfg0.rebalanceIgnoreCooldown = true ∨ ctxFlip.winnerFlip = true ∨
      shouldTrade cfg0 ctxFlip stReb TradeKey.rebalanceDoji = true :=
  c7_flip_bypasses_cooldown.1 cfg0 ctxFlip stReb TradeKey.rebalanceDoji rfl

theorem normalizeTradeSize_nonpos (rawSize : ℚ) (side : Side) (p ms av : Option ℚ)
    (mn mnn : ℚ) (h : rawSize ≤ 0) :
    normalizeTradeSize rawSize side p ms av mn mnn = 0 := by
  unfold normalizeTradeSize
  rw [if_pos h]

theorem desiredSizeOf_nonpos (a : CallArgs) (env : Env) (cfg : Config) (tok : Option ℕ)
    (sp : ℚ) (stX : TState) (v : ℚ) (h : a.sizeOverride = some v) (hv : v ≤ 0) :
    desiredSizeOf a env cfg tok sp stX = 0 := by
  unfold desiredSizeOf
  dsimp only
  rw [h]
  exact normalizeTradeSize_nonpos _ _ _ _ _ _ _ hv

/-- A size override that is not positive makes `executeTrade` drop the
attempt without an entry. -/
theorem executeTrade_nonposOverride (a : CallArgs) (env : Env) (cfg : Config) (st : TState)
    (v : ℚ) (h : a.sizeOverride = some v) (hv : v ≤ 0) :
    (executeTrade a env cfg st).1 = none := by
  unfold executeTrade
  dsimp only
  rw [if_pos (le_of_eq (desiredSizeOf_nonpos a env cfg _ _ _ v h hv))]

/-- The entry pushed by one `executeTrade` call carries the call's
identity fields; if no entry is returned the tick log is unchanged. -/
theorem executeTrade_tick (b : CallArgs) (env : Env) (cfg : Config) (st2 : TState) :
    (executeTrade b env cfg st2).2.tickEntries = st2.tickEntries ∨
    ∃ h2, (executeTrade b env cfg st2).1 = some h2 ∧
      h2.isHedge = b.isHedge ∧ h2.hedgeOf = b.hedgeOf ∧ h2.side = b.side ∧
      h2.outcome = b.outcome ∧
      (executeTrade b env cfg st2).2.tickEntries = h2 :: st2.tickEntries := by
  have H := executeTrade_spec b env cfg st2
  rcases hE : executeTrade b env cfg st2 with ⟨e?, s2⟩
  rw [hE] at H
  rcases e? with _ | e
  · exact Or.inl H.1
  · exact Or.inr ⟨e, rfl, H.2.2.1, H.2.2.2.1, H.2.2.2.2.1, H.2.2.2.2.2.1, H.1⟩

/-- Instantiating `executeTrade_spec` at a known result. -/
theorem etPost_of_eq {a : CallArgs} {env : Env} {cfg : Config} {st : TState}
    {r : Option Entry × TState} (h : executeTrade a env cfg st = r) :
    EtPost a env st r :=
  h ▸ executeTrade_spec a env cfg st

/-- `dojiStep` either leaves the tick log unchanged or pushes exactly one
non-hedge entry. -/
theorem dojiStep_tick (env : Env) (cfg : Config) (ctx : RunCtx) (st : TState) :
    ((dojiStep env cfg ctx st).1 = false →
      (dojiStep env cfg ctx st).2.tickEntries = st.tickEntries) ∧
    ((dojiStep env cfg ctx st).1 = true →
      ∃ e, e.isHedge = false ∧
        (dojiStep env cfg ctx st).2.tickEntries = e :: st.tickEntries) := by
  unfold dojiStep
  dsimp only
  split
  · exact ⟨fun _ => rfl, fun hc => Bool.noConfusion hc⟩
  · split
    · exact ⟨fun _ => rfl, fun hc => Bool.noConfusion hc⟩
    · split
      · exact ⟨fun _ => rfl, fun hc => Bool.noConfusion hc⟩
      · split
        · exact ⟨fun _ => rfl, fun hc => Bool.noConfusion hc⟩
        · split
          · rename_i e st2 heq
            have H := etPost_of_eq heq
            exact ⟨fun hc => Bool.noConfusion hc, fun _ => ⟨e, H.2.2.1, H.1⟩⟩
          · rename_i st2 heq
            have H := etPost_of_eq heq
            exact ⟨fun _ => H.1, fun hc => Bool.noConfusion hc⟩

/-- `rebalanceStep` either leaves the tick log unchanged or pushes
exactly one non-hedge entry. -/
theorem rebalanceStep_tick (env : Env) (cfg : Config) (ctx : RunCtx) (st : TState) :
    ((rebalanceStep env cfg ctx st).1 = false →
      (rebalanceStep env cfg ctx st).2.tickEntries = st.tickEntries) ∧
    ((rebalanceStep env cfg ctx st).1 = true →
      ∃ e, e.isHedge = false ∧
        (rebalanceStep env cfg ctx st).2.tickEntries = e :: st.tickEntries) := by
  unfold rebalanceStep
  dsimp only
  repeat' first
    | exact ⟨fun _ => rfl, fun hc => Bool.noConfusion hc⟩
    | split
  all_goals
    rename_i heq
    have H := etPost_of_eq heq
    first
      | exact ⟨fun hc => Bool.noConfusion hc, fun _ => ⟨_, H.2.2.1, H.1⟩⟩
      | exact ⟨fun _ => H.1, fun hc => Bool.noConfusion hc⟩

/-- If `executeTrade` returned an entry, its size override (when given)
was positive. -/
theorem executeTrade_some_posOverride {a : CallArgs} {env : Env} {cfg : Config}
    {st : TState} {h2 : Entry} (hsome : (executeTrade a env cfg st).1 = some h2)
    (v : ℚ) (hov : a.sizeOverride = some v) : ¬v ≤ 0 := fun hv =>
  Option.noConfusion ((executeTrade_nonposOverride a env cfg st v hov hv).symm.trans hsome)

/-- What the hedge tail can do: leave the lock alone and either leave the
tick log unchanged or push exactly one hedge record referencing its
trigger, which is then a positively-sized non-hedge BUY that is neither
no-fill nor error. -/
theorem hedgeAfter_spec (env : Env) (cfg : Config) (ctx : RunCtx) (e : Entry)
    (lock : List Outcome) (st : TState) :
    (hedgeAfter env cfg ctx e lock st).1 = lock ∧
    ((hedgeAfter env cfg ctx e lock st).2.tickEntries = st.tickEntries ∨
      (e.isHedge = false ∧ e.side = Side.buy ∧
       ¬e.status = Status.noFill ∧ ¬e.status = Status.error ∧ 0 < e.size ∧
       ∃ h2, h2.isHedge = true ∧ h2.hedgeOf = some e.id ∧ h2.side = Side.buy ∧
         h2.outcome = e.outcome.opp ∧
         (hedgeAfter env cfg ctx e lock st).2.tickEntries = h2 :: st.tickEntries)) := by
  unfold hedgeAfter
  dsimp only
  split
  · exact ⟨rfl, Or.inl rfl⟩
  · rename_i hg1
    split
    · exact ⟨rfl, Or.inl rfl⟩
    · rename_i hg2
      rcases hoo : e.outcome.opp with _ | _
      · dsimp only
        split
        · rename_i pv rv hpeq hreq
          split
          · exact ⟨rfl, Or.inl rfl⟩
          · split
            · exact ⟨rfl, Or.inl rfl⟩
            · split
              · exact ⟨rfl, Or.inl rfl⟩
              · split
                · exact ⟨rfl, Or.inl rfl⟩
                · split
                  · exact ⟨rfl, Or.inl rfl⟩
                  · split
                    · exact ⟨rfl, Or.inl rfl⟩
                    · rename_i hmult
                      rcases executeTrade_tick
                          { outcome := Outcome.up, side := Side.buy, price := pv,
                            ratio := some rv,
                            momentum := computeMomentum ctx.next.upBuy cfg.momentumWindowSec,
                            threshold := Thresh.hedgeBand cfg.hedgeRatioMin cfg.hedgeRatioMax,
                            reason := BaseReason.hedge e.outcome, isHedge := true,
                            hedgeOf := some e.id,
                            sizeOverride := some (min cfg.maxSize (e.size * cfg.hedgeSizeMult)) }
                          env cfg st with
                        hunch | ⟨h2, hsome, hh1, hh2, hh3, hh4, htick⟩
                      · exact ⟨rfl, Or.inl hunch⟩
                      · refine ⟨rfl, Or.inr ⟨?_, ?_, ?_, ?_, ?_,
                          h2, hh1, hh2, hh3, hh4, htick⟩⟩
                        · exact Bool.eq_false_iff.mpr (fun h => hg1 (Or.inl h))
                        · have := not_or.mp hg2
                          exact not_not.mp this.2
                        · exact fun h => hg1 (Or.inr (Or.inl h))
                        · exact fun h => hg1 (Or.inr (Or.inr h))
                        · by_cases hsz : e.size ≤ 0
                          · have hmul : e.size * cfg.hedgeSizeMult ≤ 0 := by
                              have h0 : (0:ℚ) ≤ cfg.hedgeSizeMult :=
                                le_of_lt (lt_of_not_le hmult)
                              have := mul_le_mul_of_nonneg_right hsz h0
                              rwa [zero_mul] at this
                            exact absurd (le_trans (min_le_right _ _) hmul)
                              (executeTrade_some_posOverride hsome _ rfl)
                          · exact lt_of_not_le hsz
        · exact ⟨rfl, Or.inl rfl⟩
      · dsimp only
        split
        · rename_i pv rv hpeq hreq
          split
          · exact ⟨rfl, Or.inl rfl⟩
          · split
            · exact ⟨rfl, Or.inl rfl⟩
            · split
              · exact ⟨rfl, Or.inl rfl⟩
              · split
                · exact ⟨rfl, Or.inl rfl⟩
                · split
                  · exact ⟨rfl, Or.inl rfl⟩
                  · split
                    · exact ⟨rfl, Or.inl rfl⟩
                    · rename_i hmult
                      rcases executeTrade_tick
                          { outcome := Outcome.down, side := Side.buy, price := pv,
                            ratio := some rv,
                            momentum := computeMomentum ctx.next.downBuy cfg.momentumWindowSec,
                            threshold := Thresh.hedgeBand cfg.hedgeRatioMin cfg.hedgeRatioMax,
                            reason := BaseReason.hedge e.outcome, isHedge := true,
                            hedgeOf := some e.id,
                            sizeOverride := some (min cfg.maxSize (e.size * cfg.hedgeSizeMult)) }
                          env cfg st with
                        hunch | ⟨h2, hsome, hh1, hh2, hh3, hh4, htick⟩
                      · exact ⟨rfl, Or.inl hunch⟩
                      · refine ⟨rfl, Or.inr ⟨?_, ?_, ?_, ?_, ?_,
                          h2, hh1, hh2, hh3, hh4, htick⟩⟩
                        · exact Bool.eq_false_iff.mpr (fun h => hg1 (Or.inl h))
                        · have := not_or.mp hg2
                          exact not_not.mp this.2
                        · exact fun h => hg1 (Or.inr (Or.inl h))
                        · exact fun h => hg1 (Or.inr (Or.inr h))
                        · by_cases hsz : e.size ≤ 0
                          · have hmul : e.size * cfg.hedgeSizeMult ≤ 0 := by
                              have h0 : (0:ℚ) ≤ cfg.hedgeSizeMult :=
                                le_of_lt (lt_of_not_le hmult)
                              have := mul_le_mul_of_nonneg_right hsz h0
                              rwa [zero_mul] at this
                            exact absurd (le_trans (min_le_right _ _) hmul)
                              (executeTrade_some_posOverride hsome _ rfl)
                          · exact lt_of_not_le hsz
        · exact ⟨rfl, Or.inl rfl⟩

/-- What the executing tail of a signal iteration does: it always takes
the outcome lock, and the tick log gains nothing, exactly one non-hedge
entry for the signal's outcome, or such an entry followed by one hedge
record referencing it (the trigger then being a BUY whose status is
filled, partial or sim). -/
theorem execSignal_spec (env : Env) (cfg : Config) (ctx : RunCtx) (sig : Signal)
    (lock : List Outcome) (st : TState) (price ratio mom : ℚ) (pr pwb : Bool) :
    (execSignal env cfg ctx sig lock st price ratio mom pr pwb).1 = sig.outcome :: lock ∧
    ((execSignal env cfg ctx sig lock st price ratio mom pr pwb).2.tickEntries
        = st.tickEntries ∨
      ∃ e, e.isHedge = false ∧ e.outcome = sig.outcome ∧
        ((execSignal env cfg ctx sig lock st price ratio mom pr pwb).2.tickEntries
            = e :: st.tickEntries ∨
         (e.side = Side.buy ∧
          (e.status = Status.filled ∨ e.status = Status.partialFill ∨
            e.status = Status.sim) ∧
          ∃ h2, h2.isHedge = true ∧ h2.hedgeOf = some e.id ∧ h2.side = Side.buy ∧
            h2.outcome = sig.outcome.opp ∧
            (execSignal env cfg ctx sig lock st price ratio mom pr pwb).2.tickEntries
              = h2 :: e :: st.tickEntries))) := by
  unfold execSignal
  dsimp only
  split
  · rename_i st2 heq
    have H := etPost_of_eq heq
    exact ⟨rfl, Or.inl H.1⟩
  · rename_i e st2 heq
    have H := etPost_of_eq heq
    obtain ⟨hl, hd⟩ := hedgeAfter_spec env cfg ctx e (sig.outcome :: lock) st2
    refine ⟨hl, ?_⟩
    rcases hd with hunch | ⟨hif, hside, hnf, herr, hsz, h2, k1, k2, k3, k4, htick⟩
    · refine Or.inr ⟨e, H.2.2.1, H.2.2.2.2.2.1, Or.inl ?_⟩
      rw [hunch]
      exact H.1
    · refine Or.inr ⟨e, H.2.2.1, H.2.2.2.2.2.1, Or.inr ⟨hside, ?_, h2, k1, k2, k3, ?_, ?_⟩⟩
      · rcases hsc : e.status with _ | _ | _ | _ | _ | _
        · exact Or.inl rfl
        · exact Or.inr (Or.inl rfl)
        · exact absurd hsc hnf
        · have hz := H.2.2.2.2.2.2.2.1 (Or.inl hsc)
          rw [hz] at hsz
          exact absurd hsz (lt_irrefl 0)
        · exact absurd hsc herr
        · exact Or.inr (Or.inr rfl)
      · rw [k4, H.2.2.2.2.2.1]
      · rw [htick, H.1]

/-- What one signal iteration can do, relative to the incoming lock and
tick log. -/
def StepPost (sig : Signal) (lock : List Outcome) (st : TState)
    (r : List Outcome × TState) : Prop :=
  (r.1 = lock ∧ r.2.tickEntries = st.tickEntries) ∨
  ((sig.outcome ∈ lock → False) ∧ r.1 = sig.outcome :: lock ∧
    (r.2.tickEntries = st.tickEntries ∨
     ∃ e, e.isHedge = false ∧ e.outcome = sig.outcome ∧
       (r.2.tickEntries = e :: st.tickEntries ∨
        (e.side = Side.buy ∧
         (e.status = Status.filled ∨ e.status = Status.partialFill ∨
           e.status = Status.sim) ∧
         ∃ h2, h2.isHedge = true ∧ h2.hedgeOf = some e.id ∧ h2.side = Side.buy ∧
           h2.outcome = sig.outcome.opp ∧
           r.2.tickEntries = h2 :: e :: st.tickEntries))))

/-- The per-iteration contract of the signal loop. -/
theorem stepSignal_spec (env : Env) (cfg : Config) (ctx : RunCtx) (sig : Signal)
    (lock : List Outcome) (st : TState) :
    StepPost sig lock st (stepSignal env cfg ctx sig lock st) := by
  unfold stepSignal
  dsimp only
  by_cases h1 : ¬sig.enabled = true
  · rw [if_pos h1]
    exact Or.inl ⟨rfl, rfl⟩
  · rw [if_neg h1]
    rcases hsp : sig.price with _ | price
    · exact Or.inl ⟨rfl, rfl⟩
    · rcases hsr : sig.ratio with _ | ratio
      · exact Or.inl ⟨rfl, rfl⟩
      · dsimp only
        by_cases h3 : ¬sig.spreadOk = true
        · rw [if_pos h3]
          exact Or.inl ⟨rfl, rfl⟩
        · rw [if_neg h3]
          by_cases h4 : sig.side = Side.buy ∧ dojiActiveB env cfg = true ∧
              ¬cfg.dojiAllowBuys = true
          · rw [if_pos h4]
            exact Or.inl ⟨rfl, rfl⟩
          · rw [if_neg h4]
            by_cases h5 : sig.side = Side.buy ∧
                (MAX_BUY_PRICE ≤ price ∨ price < MIN_BUY_PRICE)
            · rw [if_pos h5]
              exact Or.inl ⟨rfl, rfl⟩
            · rw [if_neg h5]
              by_cases h6 : sig.side = Side.buy ∧ requireFavoredPrimaryBuys = true ∧
                  ctx.favoredOutcome.isSome = true ∧ ctx.favoredOutcome ≠ some sig.outcome
              · rw [if_pos h6]
                exact Or.inl ⟨rfl, rfl⟩
              · rw [if_neg h6]
                by_cases h7 : sig.side = Side.sell ∧ st.positions.get sig.outcome ≤ 0
                · rw [if_pos h7]
                  exact Or.inl ⟨rfl, rfl⟩
                · rw [if_neg h7]
                  by_cases h8 : sig.side = Side.buy ∧ ctx.inLoserBuyClamp = true ∧
                      ctx.favoredOutcome.isSome = true ∧ ctx.favoredOutcome ≠ some sig.outcome
                  · rw [if_pos h8]
                    exact Or.inl ⟨rfl, rfl⟩
                  · rw [if_neg h8]
                    by_cases h9 : sig.side = Side.sell ∧ ctx.inWinnerHold = true ∧
                        ctx.favoredOutcome.isSome = true ∧ ctx.favoredOutcome = some sig.outcome
                    · rw [if_pos h9]
                      exact Or.inl ⟨rfl, rfl⟩
                    · rw [if_neg h9]
                      repeat' first
                        | exact Or.inl ⟨rfl, rfl⟩
                        | split
                      all_goals
                        exact Or.inr ⟨by assumption,
                          (execSignal_spec _ _ _ _ _ _ _ _ _ _ _).1,
                          (execSignal_spec _ _ _ _ _ _ _ _ _ _ _).2⟩

/-- The number of non-hedge entries for an outcome in a tick log. -/
def cntNH (o : Outcome) (l : List Entry) : ℕ :=
  (l.filter (fun e => decide (e.outcome = o) && !e.isHedge)).length

theorem cntNH_cons_hedge (o : Outcome) (e : Entry) (l : List Entry)
    (h : e.isHedge = true) : cntNH o (e :: l) = cntNH o l := by
  unfold cntNH
  rw [List.filter_cons, if_neg (by rw [h]; simp)]

theorem cntNH_cons_mine (o : Outcome) (e : Entry) (l : List Entry)
    (hh : e.isHedge = false) (ho : e.outcome = o) :
    cntNH o (e :: l) = cntNH o l + 1 := by
  unfold cntNH
  rw [List.filter_cons, if_pos (by rw [hh, ho]; simp)]
  rfl

theorem cntNH_cons_other (o : Outcome) (e : Entry) (l : List Entry)
    (ho : ¬e.outcome = o) : cntNH o (e :: l) = cntNH o l := by
  unfold cntNH
  rw [List.filter_cons, if_neg (by simp [ho])]

/-- The signal loop adds at most one non-hedge entry per outcome, and
none at all for an outcome already in the lock. -/
theorem signalLoop_bound (env : Env) (cfg : Config) (ctx : RunCtx) (sigs : List Signal) :
    ∀ (lock : List Outcome) (st : TState) (o : Outcome),
      cntNH o (signalLoop env cfg ctx sigs lock st).tickEntries
        ≤ cntNH o st.tickEntries + (if o ∈ lock then 0 else 1) := by
  induction sigs with
  | nil =>
    intro lock st o
    exact Nat.le_add_right _ _
  | cons sig rest IH =>
    intro lock st o
    have IH2 := IH (stepSignal env cfg ctx sig lock st).1
      (stepSignal env cfg ctx sig lock st).2 o
    have SS := stepSignal_spec env cfg ctx sig lock st
    refine le_trans IH2 ?_
    rcases SS with ⟨hl, ht⟩ | ⟨hmem, hl, hcase⟩
    · rw [hl, ht]
    · rw [hl]
      by_cases ho : o = sig.outcome
      · subst ho
        rw [if_pos (List.mem_cons_self _ _), if_neg hmem]
        rcases hcase with hunch | ⟨e, he1, he2, hca⟩
        · rw [hunch]
          exact Nat.le_add_right _ _
        · rcases hca with htick | ⟨_, _, h2, k1, _, _, _, htick⟩
          · rw [htick, cntNH_cons_mine _ _ _ he1 he2]
          · rw [htick, cntNH_cons_hedge _ _ _ k1, cntNH_cons_mine _ _ _ he1 he2]
      · have hite : (if o ∈ sig.outcome :: lock then 0 else 1)
            = (if o ∈ lock then (0:ℕ) else 1) := by
          by_cases hq : o ∈ lock
          · rw [if_pos hq, if_pos (List.mem_cons_of_mem _ hq)]
          · rw [if_neg hq, if_neg (show ¬o ∈ sig.outcome :: lock from fun hc => by
              rcases List.mem_cons.mp hc with h | h
              · exact ho h
              · exact hq h)]
        rw [hite]
        rcases hcase with hunch | ⟨e, he1, he2, hca⟩
        · rw [hunch]
        · have hne : ¬e.outcome = o := by
            rw [he2]
            exact fun hc => ho hc.symm
          rcases hca with htick | ⟨_, _, h2, k1, _, _, _, htick⟩
          · rw [htick, cntNH_cons_other _ _ _ hne]
          · rw [htick, cntNH_cons_hedge _ _ _ k1, cntNH_cons_other _ _ _ hne]

/-- One whole `runTrading` evaluation adds at most one non-hedge entry
per outcome to the tick log. -/
theorem runTrading_cnt (env : Env) (cfg : Config) (en : Enabled) (ctx : RunCtx)
    (st : TState) (o : Outcome) :
    cntNH o (runTrading env cfg en ctx st).tickEntries
      ≤ cntNH o st.tickEntries + 1 := by
  unfold runTrading
  dsimp only
  obtain ⟨hd0, hd1⟩ := dojiStep_tick env cfg ctx st
  split
  · rename_i hd
    obtain ⟨e, he, ht⟩ := hd1 hd
    rw [ht]
    by_cases ho : e.outcome = o
    · rw [cntNH_cons_mine _ _ _ he ho]
    · rw [cntNH_cons_other _ _ _ ho]
      exact Nat.le_add_right _ _
  · rename_i hd
    have htd : (dojiStep env cfg ctx st).2.tickEntries = st.tickEntries :=
      hd0 (Bool.eq_false_iff.mpr hd)
    obtain ⟨hr0, hr1⟩ := rebalanceStep_tick env cfg ctx (dojiStep env cfg ctx st).2
    split
    · rename_i hr
      obtain ⟨e, he, ht⟩ := hr1 hr
      rw [ht, htd]
      by_cases ho : e.outcome = o
      · rw [cntNH_cons_mine _ _ _ he ho]
      · rw [cntNH_cons_other _ _ _ ho]
        exact Nat.le_add_right _ _
    · rename_i hr
      have htr : (rebalanceStep env cfg ctx (dojiStep env cfg ctx st).2).2.tickEntries
          = (dojiStep env cfg ctx st).2.tickEntries :=
        hr0 (Bool.eq_false_iff.mpr hr)
      have hb := signalLoop_bound env cfg ctx (mkSignals env cfg en ctx) []
        (rebalanceStep env cfg ctx (dojiStep env cfg ctx st).2).2 o
      rw [htr, htd] at hb
      simpa using hb

/-! ### Claim C8: the outcome-level lock -/

def envC8 : Env := {
  upBid := some (35 / 100), upAsk := some (2 / 5),
  downBid := some (3 / 5), downAsk := some (13 / 20),
  upTokenId := some 1, downTokenId := some 2,
  endMs := some 900000, nowMs := 100000, timeLeftAtRender := some 800,
  liveAllowed := false, tradeActive := true,
  buyRatioMinAdj := 1, sellRatioMinAdj := 1, minMomentumAdj := 0,
  sizeAdjust := 1, upSpreadLimit := 1, downSpreadLimit := 1,
  effectiveSettlementBuffer := 0, effectiveCapMult := 2,
  balancePollMs := 5000, balanceStaleMs := 10000,
  balanceOracle := fun _ => none }

def series2 : List Point := [⟨0, 1⟩, ⟨50, 1⟩]

def ctxC8 : RunCtx := {
  nowSec := 100, next := ⟨series2, series2, series2, series2⟩,
  nextTimeLeft := some 800, favoredOutcome := some Outcome.up,
  inLoserBuyClamp := false, inWinnerHold := false,
  upSpreadOk := true, downSpreadOk := true,
  winnerSide := some Outcome.up, loserSide := some Outcome.down, winnerShares := 0,
  netSpentNow := 0, settlementNow := some 0, capNow := some 0,
  winnerFlip := false, rebalanceBypassSpread := false, dojiNeutralActive := false }

def stC8 : TState := {st0W with
  positions := ⟨0, 10⟩,
  condAvail := [(2, ⟨10, 10, 10, 100000⟩)]}

/-- C8 refuted as stated: in one `runTrading` evaluation the hedge that
follows the up BUY is itself an order on Down, and the down SELL signal
still fires afterwards — two orders on the same outcome in one tick. -/
theorem c8_counterexample :
    ((runTrading envC8 cfg0 enAll ctxC8 stC8).tickEntries.filter
        (fun e => decide (e.outcome = Outcome.down))).length = 2 ∧
    stC8.tickEntries = [] := by
  constructor
  · with_unfolding_all decide
  · rfl

/-- C8 (amended): the outcome lock bounds the NON-hedge orders: one
`runTrading` evaluation submits at most one non-hedge order per outcome
(hedge orders are exempt from the lock). -/
theorem c8_outcome_lock_amended (env : Env) (cfg : Config) (en : Enabled)
    (ctx : RunCtx) (st : TState) (o : Outcome)
    (h0 : cntNH o st.tickEntries = 0) :
    cntNH o (runTrading env cfg en ctx st).tickEntries ≤ 1 := by
  have h := runTrading_cnt env cfg en ctx st o
  rw [h0] at h
  simpa using h

theorem c8_outcome_lock_amended_witness :
    cntNH Outcome.down stC8.tickEntries = 0 ∧
    cntNH Outcome.down (runTrading envC8 cfg0 enAll ctxC8 stC8).tickEntries ≤ 1 := by
  have h0 : cntNH Outcome.down stC8.tickEntries = 0 := by
    with_unfolding_all decide
  exact ⟨h0, c8_outcome_lock_amended envC8 cfg0 enAll ctxC8 stC8 Outcome.down h0⟩

/-! ### Claim C4: what can trigger a hedge -/

/-- C4 (amended): any hedge record created by a signal iteration
references, via `hedgeOf`, the non-hedge BUY entry created in the same
iteration, and that trigger's status is filled, partial or sim (never
no-fill, error or skipped); a hedge entry itself never serves as a
trigger. -/
theorem c4_hedge_trigger_amended (env : Env) (cfg : Config) (ctx : RunCtx)
    (sig : Signal) (lock : List Outcome) (st : TState) :
    ∀ h2, h2 ∈ (stepSignal env cfg ctx sig lock st).2.tickEntries →
      h2 ∉ st.tickEntries →
      h2.isHedge = true →
      ∃ e, e ∈ (stepSignal env cfg ctx sig lock st).2.tickEntries ∧
        h2.hedgeOf = some e.id ∧ e.isHedge = false ∧ e.side = Side.buy ∧
        (e.status = Status.filled ∨ e.status = Status.partialFill ∨
          e.status = Status.sim) := by
  intro h2 hmem hnew hhedge
  rcases stepSignal_spec env cfg ctx sig lock st with ⟨_, ht⟩ | ⟨_, _, hcase⟩
  · rw [ht] at hmem
    exact absurd hmem hnew
  · rcases hcase with ht | ⟨e, he1, _, hca⟩
    · rw [ht] at hmem
      exact absurd hmem hnew
    · rcases hca with ht | ⟨hside, hstat, hh, k1, k2, _, _, ht⟩
      · rw [ht] at hmem
        rcases List.mem_cons.mp hmem with rfl | hmem2
        · exact Bool.noConfusion (he1.symm.trans hhedge)
        · exact absurd hmem2 hnew
      · rw [ht] at hmem
        rcases List.mem_cons.mp hmem with rfl | hmem2
        · refine ⟨e, ?_, k2, he1, hside, hstat⟩
          rw [ht]
          exact List.mem_cons_of_mem _ (List.mem_cons_self _ _)
        · rcases List.mem_cons.mp hmem2 with rfl | hmem3
          · exact Bool.noConfusion (he1.symm.trans hhedge)
          · exact absurd hmem3 hnew

def sigUp : Signal := {
  key := TradeKey.sig Outcome.up Side.buy, enabled := true, outcome := Outcome.up,
  side := Side.buy, price := some (2 / 5), ratio := some (3 / 2), momentum := some 0,
  threshold := 1, minMomentum := 0, spreadOk := true }

def c4res : List Outcome × TState := stepSignal envC8 cfg0 ctxC8 sigUp [] stC8

def c4h : Entry := c4res.2.tickEntries.getD 0 entry0

def c4trigger : Entry := c4res.2.tickEntries.getD 1 entry0

/-- C4 refuted as stated: the hedge below references a trigger whose
status is `sim`, not filled or partial. -/
theorem c4_counterexample :
    c4h.isHedge = true ∧ c4h.hedgeOf = some c4trigger.id ∧
    c4trigger.isHedge = false ∧ c4trigger.status = Status.sim ∧
    c4trigger.status ≠ Status.filled ∧ c4trigger.status ≠ Status.partialFill := by
  with_unfolding_all decide

theorem c4_hedge_trigger_amended_witness :
    c4h ∈ c4res.2.tickEntries ∧ c4h.isHedge = true ∧
    ∃ e, e ∈ c4res.2.tickEntries ∧ c4h.hedgeOf = some e.id ∧ e.isHedge = false ∧
      e.side = Side.buy ∧
      (e.status = Status.filled ∨ e.status = Status.partialFill ∨
        e.status = Status.sim) := by
  have hm : c4h ∈ (stepSignal envC8 cfg0 ctxC8 sigUp [] stC8).2.tickEntries := by
    with_unfolding_all decide
  have hn : c4h ∉ stC8.tickEntries := by
    with_unfolding_all decide
  have hh : c4h.isHedge = true := by
    with_unfolding_all decide
  exact ⟨hm, hh, c4_hedge_trigger_amended envC8 cfg0 ctxC8 sigUp [] stC8 c4h hm hn hh⟩

end PM15
